import Mathlib

/-!
Verification model of `smpl::SimpleHashTable` (SimpleHashTable header, final
version with the MULTI parameter; file `src/unnamed/part_000` of the
repository).  The C++ class is templated over `Key`, `Value`, `MULTI`,
`HashFunc`, `KeyEqual` and `BIG`.  We embed the two template instantiations
that differ structurally (`MULTI = false` as `Table`, `MULTI = true` as
`MTable`) and carry the remaining template data in a `Cfg` record.  `KeyEqual`
is modelled as decidable equality on the key type (`std::equal_to`).

Machine integers are modelled as `Nat` with explicit truncation (`% 2 ^ 64`
for `uint64_t` / `size_t`, `% 2 ^ 32` for a non-BIG `RedirectType`).  The
unbounded C++ probe loops are modelled with an explicit fuel argument equal to
the bucket count; exhausting the fuel (which corresponds to a C++ loop that
cycles without meeting its exit condition) yields a distinguished result.

The three floating-point load comparisons are modelled as exact rational
comparisons against the exact binary value of the stored constant
`MaxLoadBalance = 0.80f = 13421773 / 2 ^ 24` (see `MaxLoadNum` below).  For
the bucket counts and sizes appearing in the claims these agree exactly with
the IEEE evaluation: a quotient `size / B` of small integers can only round
across the threshold when `2 ^ 24` divides `B` (or the quotient lies within
half an ulp of the constant, impossible for the bucket counts used here).
-/

set_option maxRecDepth 8192

namespace SHT

/-- The 64-bit value space of `size_t` / `uint64_t`. -/
def U64 : Nat := 2 ^ 64

/-- Modelled from the spec: `rapid_mix` lives in the external `rapidhash.h`
header, which is not part of `src/`.  The spec describes the partial hash as
"derived by mixing `h` with a fixed 64-bit constant (a multiplicative mix of
the reference implementation's flavor)"; rapidhash's mix multiplies its two
64-bit arguments into a 128-bit product and xors the two 64-bit halves. -/
def rapid_mix (a b : Nat) : Nat := ((a * b) % U64) ^^^ ((a * b) / U64)

/-- `VALID_BIT = 0x80` from `SimpleHashTable`. -/
def VALID_BIT : Nat := 0x80

/-- `extractPartialHash`: mixes the hash with the fixed constant and forces the
valid bit; the `uint8_t` return truncates to a byte. -/
def extractPartialHash (hash : Nat) : Nat :=
  (rapid_mix (hash % U64) 0x9ddfea08eb382d69 % 256) ||| VALID_BIT

/-- The numerator of the exact binary value of `MaxLoadBalance = 0.80f`:
`0.80f = 13421773 / 2 ^ 24` exactly. -/
def MaxLoadNum : Nat := 13421773

/-- The template parameters of `SimpleHashTable` relevant to the model: the
injected `HashFunc` (a pure function to a 64-bit value), the `BIG` switch that
selects `RedirectType = uint64_t` instead of `uint32_t`, and whether the key
type is arithmetic (`std::is_arithmetic_v<Key>`), which selects the overload
of `comparePartialHashEx` that skips the stored-hash comparison. -/
structure Cfg (K : Type) where
  hasher : K → Nat
  big : Bool
  arith : Bool

/-- The modulus of `RedirectType`: `2 ^ 64` when `BIG`, else `2 ^ 32`. -/
def Cfg.redirMod {K : Type} (c : Cfg K) : Nat := if c.big then 2 ^ 64 else 2 ^ 32

/-- The state of a non-MULTI `SimpleHashTable`:  `fastHashInfo` (one control
byte per bucket, `0` = empty), `redirectInfo` (stored hash and value index per
bucket), the dense `arr` of key-value pairs, `totalElements` and
`rehashCounter`.  `extraKeyStorage` exists in the C++ class but is never
touched in the non-MULTI instantiation ( `swapExtraKeyStorageAndDelete` is a
no-op and `checkForDuplicate` reads `arr` ), so it is omitted here. -/
structure Table (K V : Type) where
  fastHashInfo : List Nat
  redirectInfo : List (Nat × Nat)
  arr : List (K × V)
  totalElements : Nat
  rehashCounter : Nat
deriving DecidableEq

variable {K V : Type}

/-- `getPartialHash`. -/
def Table.getPartialHash (t : Table K V) (loc : Nat) : Nat := t.fastHashInfo.getD loc 0

/-- `getPartialHashEx`: the stored full hash of a bucket. -/
def Table.getPartialHashEx (t : Table K V) (loc : Nat) : Nat := (t.redirectInfo.getD loc (0, 0)).1

/-- `getRedirectInfo`: the value index of a bucket. -/
def Table.getRedirectInfo (t : Table K V) (loc : Nat) : Nat := (t.redirectInfo.getD loc (0, 0)).2

/-- `getLocationEmpty`. -/
def Table.getLocationEmpty (t : Table K V) (loc : Nat) : Bool := t.getPartialHash loc == 0

/-- `comparePartialHashEx`: the arithmetic-key overload always answers true,
the general overload compares the stored hash. -/
def comparePartialHashEx (c : Cfg K) (t : Table K V) (loc h : Nat) : Bool :=
  if c.arith then true else t.getPartialHashEx loc == h

/-- `getDistanceFromDesiredSpot`. -/
def Table.getDistanceFromDesiredSpot (t : Table K V) (loc : Nat) : Nat :=
  let hash := t.getPartialHashEx loc
  let desired := hash % t.fastHashInfo.length
  if desired ≤ loc then loc - desired else loc + t.fastHashInfo.length - desired

/-- `checkForDuplicate`, non-MULTI overload: control byte, then optionally the
stored hash, then `KeyEqual` against the key of the referenced `arr` entry. -/
def checkForDuplicate [DecidableEq K] (c : Cfg K) (t : Table K V) (loc pHash extra : Nat)
    (k : K) : Bool :=
  t.getPartialHash loc == pHash && comparePartialHashEx c t loc extra &&
    (match t.arr.get? (t.getRedirectInfo loc) with
     | some e => e.1 == k
     | none => false)

/-- Result of the shared probe walk of `emplace` / `try_emplace` / `search`:
the first empty slot, a detected duplicate, or fuel exhaustion (the C++ loop
would cycle without terminating). -/
inductive ProbeRes where
  | found (loc : Nat)
  | empty (loc : Nat)
  | out
deriving DecidableEq

/-- The probe walk `while(!getLocationEmpty(l)) { if(checkForDuplicate(...))
return dup; l = (l+1) % B; }` shared verbatim by `emplace`, `try_emplace` and
`search`. -/
def probeLoop [DecidableEq K] (c : Cfg K) (t : Table K V) (pHash extra : Nat) (k : K) :
    Nat → Nat → ProbeRes
  | 0, _ => .out
  | fuel + 1, loc =>
    if t.getLocationEmpty loc then .empty loc
    else if checkForDuplicate c t loc pHash extra k then .found loc
    else probeLoop c t pHash extra k fuel ((loc + 1) % t.fastHashInfo.length)

/-- A `SimpleHashTableIterator` of the non-MULTI instantiation: `index` into
`arr`, the `all` flag, the cached `bucketIndex` (`none` models `-1`) and the
`rehashCounter` snapshot.  The C++ `operator==` of this instantiation compares
only `index`. -/
structure Iter where
  index : Nat
  all : Bool
  bucketIndex : Option Nat
  rehashCounter : Nat
deriving DecidableEq

/-- `end()`: `Iterator(this, arr.size(), true)`. -/
def Table.endIter (t : Table K V) : Iter := ⟨t.arr.length, true, none, t.rehashCounter⟩

/-- The probe loop of `specialInsert` in the freshly allocated control array:
only looks for an empty slot. -/
def siProbe (nh : List Nat) : Nat → Nat → Option Nat
  | 0, _ => none
  | fuel + 1, loc => if nh.getD loc 0 = 0 then some loc else siProbe nh fuel ((loc + 1) % nh.length)

/-- `specialInsert`: reprobe one occupied source bucket into the new arrays
using the stored hash, copying control byte and redirect pair unchanged. -/
def specialInsert (t : Table K V) (i : Nat) (acc : List Nat × List (Nat × Nat)) :
    List Nat × List (Nat × Nat) :=
  let stored := t.getPartialHashEx i
  match siProbe acc.1 acc.1.length (stored % acc.1.length) with
  | some loc => (acc.1.set loc (t.getPartialHash i), acc.2.set loc (t.redirectInfo.getD i (0, 0)))
  | none => acc

/-- `rebalance`: choose the new bucket count from the load (`B/2` when the
double-precision load is below `MaxLoadBalance/2`, `B*2` when at least
`MaxLoadBalance`, else `B`; on an unallocated table the load is `0.0/0.0 =
NaN`, which fails both comparisons), clamp to the 1024 floor, allocate fresh
arrays and reprobe every occupied bucket with `specialInsert`.  `arr` and
`totalElements` are untouched; `rehashCounter` increments. -/
def rebalance (t : Table K V) : Table K V :=
  let B := t.fastHashInfo.length
  let newSize0 :=
    if B = 0 then B
    else if t.arr.length * 2 ^ 25 < MaxLoadNum * B then B / 2
    else if MaxLoadNum * B ≤ t.arr.length * 2 ^ 24 then B * 2
    else B
  let newSize := max newSize0 1024
  let start : List Nat × List (Nat × Nat) :=
    (List.replicate newSize 0, List.replicate newSize (0, 0))
  let res := (List.range B).foldl
    (fun acc i => if t.getPartialHash i = 0 then acc else specialInsert t i acc) start
  { t with fastHashInfo := res.1, redirectInfo := res.2, rehashCounter := t.rehashCounter + 1 }

/-- Result of `emplace`: the table after a successful insertion together with
the returned iterator, the `std::runtime_error` of the capacity-overflow guard
(carrying the table state the exception leaves behind), or a probe loop that
found neither an empty slot nor a duplicate within a full cycle. -/
inductive EmplaceRes (K V : Type) where
  | overflow (t : Table K V)
  | noSlot
  | ok (t : Table K V) (it : Iter)
deriving DecidableEq

/-- The lazy allocation at the head of `emplace` / `try_emplace`. -/
def allocIfUnset (t : Table K V) : Table K V :=
  if t.fastHashInfo.length = 0 then
    { t with fastHashInfo := List.replicate 1024 0, redirectInfo := List.replicate 1024 (0, 0) }
  else t

/-- `emplace`:  lazy allocation, `checkIfOverflowPossible` (non-BIG only:
throw when `arr.size() == UINT_MAX - 1`), hash, probe; on a duplicate return
the existing bucket's iterator via the non-MULTI `appendMultimap` (no state
change); on an empty slot append to `arr`, write control byte and redirect
pair, rebalance when the float load exceeds `MaxLoadBalance`, and increment
`totalElements`. -/
def emplace [DecidableEq K] (c : Cfg K) (t0 : Table K V) (v : K × V) : EmplaceRes K V :=
  let t := allocIfUnset t0
  if c.big = false ∧ t.arr.length = 2 ^ 32 - 2 then .overflow t
  else
    let actualHash := c.hasher v.1 % U64
    let pHash := extractPartialHash actualHash
    let extra := actualHash % c.redirMod
    let B := t.fastHashInfo.length
    match probeLoop c t pHash extra v.1 B (actualHash % B) with
    | .out => .noSlot
    | .found loc => .ok t ⟨t.getRedirectInfo loc, false, some loc, t.rehashCounter⟩
    | .empty loc =>
      let t1 := { t with arr := t.arr ++ [v] }
      let t2 := { t1 with
        fastHashInfo := t1.fastHashInfo.set loc pHash,
        redirectInfo := t1.redirectInfo.set loc (extra, (t1.arr.length - 1) % c.redirMod) }
      let it : Iter := ⟨t2.arr.length - 1, false, some loc, t2.rehashCounter⟩
      let t3 := if MaxLoadNum * t2.fastHashInfo.length < t2.arr.length * 2 ^ 24
        then rebalance t2 else t2
      .ok { t3 with totalElements := t3.totalElements + 1 } it

/-- `search`:  the empty guard on `arr.size()`, then the probe walk; `none`
models the non-terminating fuel-out case, `some` the returned iterator (a
found bucket or `end()`). -/
def search [DecidableEq K] (c : Cfg K) (t : Table K V) (k : K) : Option Iter :=
  if t.arr.length = 0 then some t.endIter
  else
    let actualHash := c.hasher k % U64
    let pHash := extractPartialHash actualHash
    let extra := actualHash % c.redirMod
    let B := t.fastHashInfo.length
    match probeLoop c t pHash extra k B (actualHash % B) with
    | .found loc => some ⟨t.getRedirectInfo loc, false, some loc, t.rehashCounter⟩
    | .empty _ => some t.endIter
    | .out => none

/-- The `while(true)` loop of `remove` that locates the bucket currently
pointing at the last `arr` entry (control byte match, optional stored-hash
match, redirect equal to `arr.size() - 1`). -/
def lastSpotLoop (c : Cfg K) (t : Table K V) (lp lex : Nat) : Nat → Nat → Option Nat
  | 0, _ => none
  | fuel + 1, loc =>
    if t.getPartialHash loc = lp ∧ comparePartialHashEx c t loc lex = true ∧
        t.getRedirectInfo loc = t.arr.length - 1 then some loc
    else lastSpotLoop c t lp lex fuel ((loc + 1) % t.fastHashInfo.length)

/-- `swapDataStorageAndDelete`: swap entry `i` with the back of the vector and
pop the back. -/
def swapPop {α : Type} (l : List α) (i : Nat) : List α :=
  match l.getLast? with
  | some a => (l.set i a).dropLast
  | none => l

/-- The backward-shift loop at the end of `remove`: while the next slot is
occupied and displaced (`getDistanceFromDesiredSpot > 0`), copy its control
byte and redirect pair one slot back; stop at an empty slot or at a slot
already at its start position.  (Note: no slot is cleared here.) -/
def shiftLoop : Table K V → Nat → Nat → Nat → Option (Table K V)
  | _, _, _, 0 => none
  | t, prev, cur, fuel + 1 =>
    if t.getLocationEmpty cur then some t
    else if 0 < t.getDistanceFromDesiredSpot cur then
      shiftLoop
        { t with
          fastHashInfo := t.fastHashInfo.set prev (t.getPartialHash cur),
          redirectInfo := t.redirectInfo.set prev (t.redirectInfo.getD cur (0, 0)) }
        cur ((cur + 1) % t.fastHashInfo.length) fuel
    else some t

/-- `remove` (non-MULTI instantiation):  empty and end guards; the fast path
is dead because `elementsAtLocation` is the constant `1`; the slow path
re-derives a stale iterator through `search` on `it->first`, locates the
bucket of the last `arr` entry, clears the target bucket, swap-and-pops
`arr`, patches the redirect of the last entry's bucket, runs the
backward-shift loop and decrements `totalElements`.  `none` models the
non-terminating / undefined cases (fuel exhaustion, out-of-range iterator
dereference). -/
def remove [DecidableEq K] (c : Cfg K) (t : Table K V) (it : Iter) (deleteAll : Bool) :
    Option (Table K V × Iter) :=
  if t.arr.length = 0 then some (t, t.endIter)
  else if it.index = t.arr.length then some (t, t.endIter)
  else
    let elementCounter : Nat := 1
    if deleteAll = false ∧ 1 < elementCounter then
      some ({ t with totalElements := t.totalElements - 1 }, t.endIter)
    else
      let newIT? : Option Iter :=
        if it.rehashCounter ≠ t.rehashCounter ∨ it.bucketIndex = none then
          match t.arr.get? it.index with
          | some e => (search c t e.1).map (fun j => { j with all := it.all })
          | none => none
        else some it
      match newIT? with
      | none => none
      | some nIT =>
        if nIT.index = t.arr.length then some (t, t.endIter)
        else
          match nIT.bucketIndex with
          | none => none
          | some bucketLocation =>
            match t.arr.getLast? with
            | none => none
            | some lastE =>
              let lastSpotHash := c.hasher lastE.1 % U64
              let lp := extractPartialHash lastSpotHash
              let lex := lastSpotHash % c.redirMod
              match lastSpotLoop c t lp lex t.fastHashInfo.length
                  (lastSpotHash % t.fastHashInfo.length) with
              | none => none
              | some lastSpotLocation =>
                let t1 := { t with fastHashInfo := t.fastHashInfo.set bucketLocation 0 }
                let t2 := { t1 with arr := swapPop t1.arr it.index }
                let patched := ((t2.redirectInfo.getD lastSpotLocation (0, 0)).1,
                  t2.getRedirectInfo bucketLocation)
                let t3 := { t2 with redirectInfo := t2.redirectInfo.set lastSpotLocation patched }
                match shiftLoop t3 bucketLocation
                    ((bucketLocation + 1) % t3.fastHashInfo.length)
                    t3.fastHashInfo.length with
                | none => none
                | some t4 =>
                  let t5 := { t4 with totalElements := t4.totalElements - elementCounter }
                  if nIT.all then some (t5, ⟨nIT.index, true, none, t5.rehashCounter⟩)
                  else some (t5, t5.endIter)

/-- `erase(const Key&) = remove(find(k), true)`. -/
def eraseKey [DecidableEq K] (c : Cfg K) (t : Table K V) (k : K) : Option (Table K V × Iter) :=
  match search c t k with
  | none => none
  | some it => remove c t it true

/-- The default constructor: nothing allocated. -/
def Table.mkEmpty (K V : Type) : Table K V := ⟨[], [], [], 0, 0⟩

/-- The size-hint constructor: `initSize` clamped up to 1024, then both bucket
arrays allocated at that size. -/
def mkHinted (K V : Type) (n : Nat) : Table K V :=
  let m := if n < 1024 then 1024 else n
  ⟨List.replicate m 0, List.replicate m (0, 0), [], 0, 0⟩

/-- `clear`. -/
def Table.clear (t : Table K V) : Table K V := ⟨[], [], [], 0, t.rehashCounter + 1⟩

/-- Fold a list of insertions over `emplace`, aborting on overflow or a
non-terminating probe. -/
def insertAll [DecidableEq K] (c : Cfg K) (t : Table K V) (l : List (K × V)) :
    Option (Table K V) :=
  l.foldlM (fun acc v =>
    match emplace c acc v with
    | .ok t' _ => some t'
    | _ => none) t

/-- Modelled from the spec's wording of the probing invariant: "for every
occupied bucket `b` whose stored entry has starting position `s` (its hash
modulo the bucket count), every slot on the probe path `s, s+1, ..., b (mod
B)` is occupied".  The starting position is computed from the stored full
hash, as in the spec's `distance-from-desired`. -/
def probingInvariant (t : Table K V) : Prop :=
  ∀ b < t.fastHashInfo.length, t.getPartialHash b ≠ 0 →
    ∀ j ≤ (b + t.fastHashInfo.length - t.getPartialHashEx b % t.fastHashInfo.length) %
        t.fastHashInfo.length,
      t.getPartialHash ((t.getPartialHashEx b % t.fastHashInfo.length + j) %
        t.fastHashInfo.length) ≠ 0

instance (t : Table K V) : Decidable (probingInvariant t) := by
  unfold probingInvariant; infer_instance

/-- The state of a MULTI `SimpleHashTable`: the dense `arr` holds one
`std::list` of key-value pairs per bucket, and `extraKeyStorage` mirrors the
bucket keys. -/
structure MTable (K V : Type) where
  fastHashInfo : List Nat
  redirectInfo : List (Nat × Nat)
  arr : List (List (K × V))
  extraKeyStorage : List K
  totalElements : Nat
  rehashCounter : Nat
deriving DecidableEq

/-- A `SimpleHashTableIterator` of the MULTI instantiation; `listPos` models
the `std::list` iterator as a position in the bucket's list.  The constructor
`Iterator(ptr, index, all)` only initialises the list iterator when
`index < ptr->size()`; positions created that way are `0` (`begin()`). -/
structure MIter where
  index : Nat
  all : Bool
  listPos : Nat
  bucketIndex : Option Nat
  rehashCounter : Nat
deriving DecidableEq

/-- `getPartialHash` (MULTI instantiation). -/
def MTable.getPartialHash (t : MTable K V) (loc : Nat) : Nat := t.fastHashInfo.getD loc 0

/-- `getPartialHashEx` (MULTI instantiation). -/
def MTable.getPartialHashEx (t : MTable K V) (loc : Nat) : Nat :=
  (t.redirectInfo.getD loc (0, 0)).1

/-- `getRedirectInfo` (MULTI instantiation). -/
def MTable.getRedirectInfo (t : MTable K V) (loc : Nat) : Nat :=
  (t.redirectInfo.getD loc (0, 0)).2

/-- `getLocationEmpty` (MULTI instantiation). -/
def MTable.getLocationEmpty (t : MTable K V) (loc : Nat) : Bool := t.getPartialHash loc == 0

/-- `comparePartialHashEx` (MULTI instantiation). -/
def mcomparePartialHashEx (c : Cfg K) (t : MTable K V) (loc h : Nat) : Bool :=
  if c.arith then true else t.getPartialHashEx loc == h

/-- `getDistanceFromDesiredSpot` (MULTI instantiation). -/
def MTable.getDistanceFromDesiredSpot (t : MTable K V) (loc : Nat) : Nat :=
  let hash := t.getPartialHashEx loc
  let desired := hash % t.fastHashInfo.length
  if desired ≤ loc then loc - desired else loc + t.fastHashInfo.length - desired

/-- `checkForDuplicate`, MULTI overload: the key comparison reads
`extraKeyStorage` instead of the data plane. -/
def mcheckForDuplicate [DecidableEq K] (c : Cfg K) (t : MTable K V) (loc pHash extra : Nat)
    (k : K) : Bool :=
  t.getPartialHash loc == pHash && mcomparePartialHashEx c t loc extra &&
    (match t.extraKeyStorage.get? (t.getRedirectInfo loc) with
     | some k' => k' == k
     | none => false)

/-- The shared probe walk, MULTI instantiation. -/
def mprobeLoop [DecidableEq K] (c : Cfg K) (t : MTable K V) (pHash extra : Nat) (k : K) :
    Nat → Nat → ProbeRes
  | 0, _ => .out
  | fuel + 1, loc =>
    if t.getLocationEmpty loc then .empty loc
    else if mcheckForDuplicate c t loc pHash extra k then .found loc
    else mprobeLoop c t pHash extra k fuel ((loc + 1) % t.fastHashInfo.length)

/-- `end()` of the MULTI instantiation (the default-constructed list iterator
is modelled as position 0). -/
def MTable.endIter (t : MTable K V) : MIter := ⟨t.arr.length, true, 0, none, t.rehashCounter⟩

/-- `specialInsert` (MULTI instantiation). -/
def mspecialInsert (t : MTable K V) (i : Nat) (acc : List Nat × List (Nat × Nat)) :
    List Nat × List (Nat × Nat) :=
  let stored := t.getPartialHashEx i
  match siProbe acc.1 acc.1.length (stored % acc.1.length) with
  | some loc => (acc.1.set loc (t.getPartialHash i), acc.2.set loc (t.redirectInfo.getD i (0, 0)))
  | none => acc

/-- `rebalance` (MULTI instantiation). -/
def mrebalance (t : MTable K V) : MTable K V :=
  let B := t.fastHashInfo.length
  let newSize0 :=
    if B = 0 then B
    else if t.arr.length * 2 ^ 25 < MaxLoadNum * B then B / 2
    else if MaxLoadNum * B ≤ t.arr.length * 2 ^ 24 then B * 2
    else B
  let newSize := max newSize0 1024
  let start : List Nat × List (Nat × Nat) :=
    (List.replicate newSize 0, List.replicate newSize (0, 0))
  let res := (List.range B).foldl
    (fun acc i => if t.getPartialHash i = 0 then acc else mspecialInsert t i acc) start
  { t with fastHashInfo := res.1, redirectInfo := res.2, rehashCounter := t.rehashCounter + 1 }

/-- Result of the MULTI `emplace`. -/
inductive MEmplaceRes (K V : Type) where
  | overflow (t : MTable K V)
  | noSlot
  | ok (t : MTable K V) (it : MIter)
deriving DecidableEq

/-- The lazy allocation at the head of the MULTI `emplace`. -/
def mallocIfUnset (t : MTable K V) : MTable K V :=
  if t.fastHashInfo.length = 0 then
    { t with fastHashInfo := List.replicate 1024 0, redirectInfo := List.replicate 1024 (0, 0) }
  else t

/-- `emplace`, MULTI instantiation.  On a duplicate, the MULTI
`appendMultimap` appends the new entry to the bucket's list, increments
`totalElements` and returns an iterator at the appended position.  On an empty
slot, `attemptToAdd` pushes a singleton list onto `arr` and the key onto
`extraKeyStorage`. -/
def memplace [DecidableEq K] (c : Cfg K) (t0 : MTable K V) (v : K × V) : MEmplaceRes K V :=
  let t := mallocIfUnset t0
  if c.big = false ∧ t.arr.length = 2 ^ 32 - 2 then .overflow t
  else
    let actualHash := c.hasher v.1 % U64
    let pHash := extractPartialHash actualHash
    let extra := actualHash % c.redirMod
    let B := t.fastHashInfo.length
    match mprobeLoop c t pHash extra v.1 B (actualHash % B) with
    | .out => .noSlot
    | .found loc =>
      let aL := t.getRedirectInfo loc
      .ok { t with arr := t.arr.set aL (t.arr.getD aL [] ++ [v]),
                   totalElements := t.totalElements + 1 }
        ⟨aL, false, (t.arr.getD aL []).length, some loc, t.rehashCounter⟩
    | .empty loc =>
      let t1 := { t with arr := t.arr ++ [[v]], extraKeyStorage := t.extraKeyStorage ++ [v.1] }
      let t2 := { t1 with
        fastHashInfo := t1.fastHashInfo.set loc pHash,
        redirectInfo := t1.redirectInfo.set loc (extra, (t1.arr.length - 1) % c.redirMod) }
      let it : MIter := ⟨t2.arr.length - 1, false, 0, some loc, t2.rehashCounter⟩
      let t3 := if MaxLoadNum * t2.fastHashInfo.length < t2.arr.length * 2 ^ 24
        then mrebalance t2 else t2
      .ok { t3 with totalElements := t3.totalElements + 1 } it

/-- `search`, MULTI instantiation.  A found bucket yields an iterator whose
list iterator is the bucket list's `begin()`. -/
def msearch [DecidableEq K] (c : Cfg K) (t : MTable K V) (k : K) : Option MIter :=
  if t.arr.length = 0 then some t.endIter
  else
    let actualHash := c.hasher k % U64
    let pHash := extractPartialHash actualHash
    let extra := actualHash % c.redirMod
    let B := t.fastHashInfo.length
    match mprobeLoop c t pHash extra k B (actualHash % B) with
    | .found loc => some ⟨t.getRedirectInfo loc, false, 0, some loc, t.rehashCounter⟩
    | .empty _ => some t.endIter
    | .out => none

/-- The last-spot loop of `remove` (MULTI instantiation). -/
def mlastSpotLoop (c : Cfg K) (t : MTable K V) (lp lex : Nat) : Nat → Nat → Option Nat
  | 0, _ => none
  | fuel + 1, loc =>
    if t.getPartialHash loc = lp ∧ mcomparePartialHashEx c t loc lex = true ∧
        t.getRedirectInfo loc = t.arr.length - 1 then some loc
    else mlastSpotLoop c t lp lex fuel ((loc + 1) % t.fastHashInfo.length)

/-- The backward-shift loop of `remove` (MULTI instantiation). -/
def mshiftLoop : MTable K V → Nat → Nat → Nat → Option (MTable K V)
  | _, _, _, 0 => none
  | t, prev, cur, fuel + 1 =>
    if t.getLocationEmpty cur then some t
    else if 0 < t.getDistanceFromDesiredSpot cur then
      mshiftLoop
        { t with
          fastHashInfo := t.fastHashInfo.set prev (t.getPartialHash cur),
          redirectInfo := t.redirectInfo.set prev (t.redirectInfo.getD cur (0, 0)) }
        cur ((cur + 1) % t.fastHashInfo.length) fuel
    else some t

/-- `getKey` applied to a bucket's list delegates to the list's back:
`getKey(v.back())`. -/
def mlastKey (lst : List (K × V)) : Option K := (lst.getLast?).map Prod.fst

/-- `remove`, MULTI instantiation.  `elementsAtLocation` is the length of the
bucket's list; the fast path (`deleteAll = false` and at least two list
elements) is `removeFromList`, which erases one list element; the slow path
removes the whole bucket exactly as in the non-MULTI instantiation, with the
extra swap-and-pop on `extraKeyStorage`. -/
def mremove [DecidableEq K] (c : Cfg K) (t : MTable K V) (it : MIter) (deleteAll : Bool) :
    Option (MTable K V × MIter) :=
  if t.arr.length = 0 then some (t, t.endIter)
  else if it.index = t.arr.length then some (t, t.endIter)
  else
    let elementCounter : Nat := (t.arr.getD it.index []).length
    if deleteAll = false ∧ 1 < elementCounter then
      let lst := t.arr.getD it.index []
      let lst' := lst.take it.listPos ++ lst.drop (it.listPos + 1)
      let t' := { t with arr := t.arr.set it.index lst',
                         totalElements := t.totalElements - 1 }
      if it.listPos = lst'.length then some (t', t'.endIter)
      else some (t', ⟨it.index, it.all, it.listPos, it.bucketIndex, t'.rehashCounter⟩)
    else
      let newIT? : Option MIter :=
        if it.rehashCounter ≠ t.rehashCounter ∨ it.bucketIndex = none then
          match (t.arr.getD it.index []).get? it.listPos with
          | some e => (msearch c t e.1).map (fun j => { j with all := it.all })
          | none => none
        else some it
      match newIT? with
      | none => none
      | some nIT =>
        if nIT.index = t.arr.length then some (t, t.endIter)
        else
          match nIT.bucketIndex with
          | none => none
          | some bucketLocation =>
            match (t.arr.getLast?).bind mlastKey with
            | none => none
            | some lastK =>
              let lastSpotHash := c.hasher lastK % U64
              let lp := extractPartialHash lastSpotHash
              let lex := lastSpotHash % c.redirMod
              match mlastSpotLoop c t lp lex t.fastHashInfo.length
                  (lastSpotHash % t.fastHashInfo.length) with
              | none => none
              | some lastSpotLocation =>
                let t1 := { t with fastHashInfo := t.fastHashInfo.set bucketLocation 0 }
                let t2 := { t1 with arr := swapPop t1.arr it.index,
                                    extraKeyStorage := swapPop t1.extraKeyStorage it.index }
                let patched := ((t2.redirectInfo.getD lastSpotLocation (0, 0)).1,
                  t2.getRedirectInfo bucketLocation)
                let t3 := { t2 with redirectInfo := t2.redirectInfo.set lastSpotLocation patched }
                match mshiftLoop t3 bucketLocation
                    ((bucketLocation + 1) % t3.fastHashInfo.length)
                    t3.fastHashInfo.length with
                | none => none
                | some t4 =>
                  let t5 := { t4 with totalElements := t4.totalElements - elementCounter }
                  if nIT.all then some (t5, ⟨nIT.index, true, 0, none, t5.rehashCounter⟩)
                  else some (t5, t5.endIter)

/-- `erase(const Key&)` (MULTI instantiation). -/
def meraseKey [DecidableEq K] (c : Cfg K) (t : MTable K V) (k : K) :
    Option (MTable K V × MIter) :=
  match msearch c t k with
  | none => none
  | some it => mremove c t it true

/-- The default constructor (MULTI instantiation). -/
def MTable.mkEmpty (K V : Type) : MTable K V := ⟨[], [], [], [], 0, 0⟩

/-- Fold a list of insertions over the MULTI `emplace`. -/
def minsertAll [DecidableEq K] (c : Cfg K) (t : MTable K V) (l : List (K × V)) :
    Option (MTable K V) :=
  l.foldlM (fun acc v =>
    match memplace c acc v with
    | .ok t' _ => some t'
    | _ => none) t

/-! ### Helper lemmas -/

theorem lor_valid_ne_zero (x : Nat) : x ||| VALID_BIT ≠ 0 := by
  intro h
  have h2 : (x ||| VALID_BIT).testBit 7 = true := by
    simp [Nat.testBit_or]
    right
    decide
  rw [h] at h2
  simp at h2

theorem extractPartialHash_ne_zero (h : Nat) : extractPartialHash h ≠ 0 :=
  lor_valid_ne_zero _

theorem getD_set_self {α : Type} (l : List α) (i : Nat) (a d : α) (h : i < l.length) :
    (l.set i a).getD i d = a := by
  rw [List.getD_eq_getElem?_getD, List.getElem?_set_self h]
  rfl

theorem getD_set_ne {α : Type} (l : List α) {i j : Nat} (a d : α) (h : i ≠ j) :
    (l.set i a).getD j d = l.getD j d := by
  rw [List.getD_eq_getElem?_getD, List.getElem?_set_ne h, ← List.getD_eq_getElem?_getD]

theorem getD_replicate {α : Type} {n i : Nat} (x d : α) (h : i < n) :
    (List.replicate n x).getD i d = x := by
  rw [List.getD_eq_getElem?_getD, List.getElem?_replicate, if_pos h]
  rfl

theorem getD_nil {α : Type} (i : Nat) (d : α) : ([] : List α).getD i d = d := rfl

theorem foldl_invariant {α β : Type} (f : β → α → β) (P : β → Prop)
    (hf : ∀ b a, P b → P (f b a)) : ∀ (l : List α) (b : β), P b → P (l.foldl f b)
  | [], _, hb => hb
  | _ :: l, b, hb => foldl_invariant f P hf l _ (hf b _ hb)

theorem succ_mod_ne {n : Nat} (h : 1 < n) {s : Nat} (hs : s < n) : (s + 1) % n ≠ s := by
  rcases Nat.lt_or_ge (s + 1) n with h1 | h1
  · rw [Nat.mod_eq_of_lt h1]
    omega
  · have hsn : s + 1 = n := by omega
    rw [hsn, Nat.mod_self]
    omega

theorem probeLoop_found_step [DecidableEq K] (c : Cfg K) (t : Table K V) (pH ex : Nat) (k : K)
    {fuel loc : Nat} (hf : fuel ≠ 0) (hne : t.getLocationEmpty loc = false)
    (hdup : checkForDuplicate c t loc pH ex k = true) :
    probeLoop c t pH ex k fuel loc = .found loc := by
  cases fuel with
  | zero => exact absurd rfl hf
  | succ n => simp [probeLoop, hne, hdup]

theorem probeLoop_empty_step [DecidableEq K] (c : Cfg K) (t : Table K V) (pH ex : Nat) (k : K)
    {fuel loc : Nat} (hf : fuel ≠ 0) (hemp : t.getLocationEmpty loc = true) :
    probeLoop c t pH ex k fuel loc = .empty loc := by
  cases fuel with
  | zero => exact absurd rfl hf
  | succ n => simp [probeLoop, hemp]

theorem probeLoop_skip_step [DecidableEq K] (c : Cfg K) (t : Table K V) (pH ex : Nat) (k : K)
    {fuel loc : Nat} (hne : t.getLocationEmpty loc = false)
    (hnd : checkForDuplicate c t loc pH ex k = false) :
    probeLoop c t pH ex k (fuel + 1) loc =
      probeLoop c t pH ex k fuel ((loc + 1) % t.fastHashInfo.length) := by
  simp [probeLoop, hne, hnd]

theorem probeLoop_found_inv [DecidableEq K] (c : Cfg K) (t : Table K V) (pH ex : Nat) (k : K) :
    ∀ {fuel loc l' : Nat}, probeLoop c t pH ex k fuel loc = .found l' →
      t.getLocationEmpty l' = false ∧ checkForDuplicate c t l' pH ex k = true := by
  intro fuel
  induction fuel with
  | zero => intro loc l' h; simp [probeLoop] at h
  | succ n ih =>
    intro loc l' h
    rw [probeLoop] at h
    by_cases hemp : t.getLocationEmpty loc = true
    · simp [hemp] at h
    · rw [Bool.not_eq_true] at hemp
      by_cases hdup : checkForDuplicate c t loc pH ex k = true
      · simp [hemp, hdup] at h
        subst h
        exact ⟨hemp, hdup⟩
      · rw [Bool.not_eq_true] at hdup
        simp [hemp, hdup] at h
        exact ih h

theorem probeLoop_empty_inv [DecidableEq K] (c : Cfg K) (t : Table K V) (pH ex : Nat) (k : K) :
    ∀ {fuel loc l' : Nat}, probeLoop c t pH ex k fuel loc = .empty l' →
      t.getLocationEmpty l' = true := by
  intro fuel
  induction fuel with
  | zero => intro loc l' h; simp [probeLoop] at h
  | succ n ih =>
    intro loc l' h
    rw [probeLoop] at h
    by_cases hemp : t.getLocationEmpty loc = true
    · simp [hemp] at h
      subst h
      exact hemp
    · rw [Bool.not_eq_true] at hemp
      by_cases hdup : checkForDuplicate c t loc pH ex k = true
      · simp [hemp, hdup] at h
      · rw [Bool.not_eq_true] at hdup
        simp [hemp, hdup] at h
        exact ih h

/-! ### Facts about `rebalance` -/

theorem rebalance_arr (t : Table K V) : (rebalance t).arr = t.arr := rfl

theorem rebalance_totalElements (t : Table K V) :
    (rebalance t).totalElements = t.totalElements := rfl

theorem rebalance_rehashCounter (t : Table K V) :
    (rebalance t).rehashCounter = t.rehashCounter + 1 := rfl

theorem fold_si_length (t : Table K V) (l : List Nat) (start : List Nat × List (Nat × Nat)) :
    ((l.foldl (fun acc i => if t.getPartialHash i = 0 then acc else specialInsert t i acc)
        start)).1.length = start.1.length := by
  have h := foldl_invariant
    (fun acc i => if t.getPartialHash i = 0 then acc else specialInsert t i acc)
    (fun acc => acc.1.length = start.1.length)
    (by
      intro b a hb
      by_cases hz : t.getPartialHash a = 0
      · simpa [hz] using hb
      · simp only [hz, if_neg, if_false]
        unfold specialInsert
        cases hsi : siProbe b.1 b.1.length (t.getPartialHashEx a % b.1.length) with
        | none => simpa [hsi] using hb
        | some loc => simpa [hsi, List.length_set] using hb)
    l start rfl
  exact h

/-- The bucket count produced by `rebalance`: halved below the `0.40` load
threshold, doubled at or above the `0.80` threshold, unchanged otherwise
(an unallocated table computes a NaN load, taking neither branch), and always
clamped to the 1024 floor. -/
theorem rebalance_length (t : Table K V) :
    (rebalance t).fastHashInfo.length =
      max (if t.fastHashInfo.length = 0 then t.fastHashInfo.length
        else if t.arr.length * 2 ^ 25 < MaxLoadNum * t.fastHashInfo.length
          then t.fastHashInfo.length / 2
        else if MaxLoadNum * t.fastHashInfo.length ≤ t.arr.length * 2 ^ 24
          then t.fastHashInfo.length * 2
        else t.fastHashInfo.length) 1024 := by
  have h := fold_si_length t (List.range t.fastHashInfo.length)
    (List.replicate (max (if t.fastHashInfo.length = 0 then t.fastHashInfo.length
        else if t.arr.length * 2 ^ 25 < MaxLoadNum * t.fastHashInfo.length
          then t.fastHashInfo.length / 2
        else if MaxLoadNum * t.fastHashInfo.length ≤ t.arr.length * 2 ^ 24
          then t.fastHashInfo.length * 2
        else t.fastHashInfo.length) 1024) 0,
      List.replicate (max (if t.fastHashInfo.length = 0 then t.fastHashInfo.length
        else if t.arr.length * 2 ^ 25 < MaxLoadNum * t.fastHashInfo.length
          then t.fastHashInfo.length / 2
        else if MaxLoadNum * t.fastHashInfo.length ≤ t.arr.length * 2 ^ 24
          then t.fastHashInfo.length * 2
        else t.fastHashInfo.length) 1024) (0, 0))
  rw [List.length_replicate] at h
  exact h

theorem allocIfUnset_of_ne (t : Table K V) (h : t.fastHashInfo.length ≠ 0) :
    allocIfUnset t = t := by
  simp [allocIfUnset, h]

theorem allocIfUnset_arr (t : Table K V) : (allocIfUnset t).arr = t.arr := by
  unfold allocIfUnset
  split <;> rfl

theorem allocIfUnset_rehashCounter (t : Table K V) :
    (allocIfUnset t).rehashCounter = t.rehashCounter := by
  unfold allocIfUnset
  split <;> rfl

theorem allocIfUnset_length (t : Table K V) :
    (allocIfUnset t).fastHashInfo.length =
      if t.fastHashInfo.length = 0 then 1024 else t.fastHashInfo.length := by
  unfold allocIfUnset
  split <;> simp_all

theorem allocIfUnset_idem (t : Table K V) : allocIfUnset (allocIfUnset t) = allocIfUnset t := by
  by_cases h : t.fastHashInfo.length = 0
  · exact allocIfUnset_of_ne (allocIfUnset t)
      (by rw [allocIfUnset_length, if_pos h]; norm_num)
  · rw [allocIfUnset_of_ne t h]
    exact allocIfUnset_of_ne t h

theorem emplace_allocIfUnset [DecidableEq K] (c : Cfg K) (t : Table K V) (v : K × V) :
    emplace c t v = emplace c (allocIfUnset t) v := by
  unfold emplace
  rw [allocIfUnset_idem]

/-- The duplicate branch of `emplace`: the probe walk detects a duplicate at
`loc`; the non-MULTI `appendMultimap` changes nothing and returns the existing
bucket's iterator. -/
theorem emplace_of_found [DecidableEq K] (c : Cfg K) (t : Table K V) (v : K × V) (loc : Nat)
    (halloc : t.fastHashInfo.length ≠ 0)
    (hg : ¬ (c.big = false ∧ t.arr.length = 2 ^ 32 - 2))
    (hp : probeLoop c t (extractPartialHash (c.hasher v.1 % U64))
        (c.hasher v.1 % U64 % c.redirMod) v.1 t.fastHashInfo.length
        (c.hasher v.1 % U64 % t.fastHashInfo.length) = .found loc) :
    emplace c t v = .ok t ⟨t.getRedirectInfo loc, false, some loc, t.rehashCounter⟩ := by
  unfold emplace
  rw [allocIfUnset_of_ne t halloc]
  simp only []
  rw [if_neg hg, hp]

/-- The fresh-slot branch of `emplace`: the probe walk ends on the empty slot
`loc`; the entry is appended, the control plane written, and the load check
decides whether a rebalance runs before `totalElements` increments. -/
theorem emplace_of_empty [DecidableEq K] (c : Cfg K) (t : Table K V) (v : K × V) (loc : Nat)
    (halloc : t.fastHashInfo.length ≠ 0)
    (hg : ¬ (c.big = false ∧ t.arr.length = 2 ^ 32 - 2))
    (hp : probeLoop c t (extractPartialHash (c.hasher v.1 % U64))
        (c.hasher v.1 % U64 % c.redirMod) v.1 t.fastHashInfo.length
        (c.hasher v.1 % U64 % t.fastHashInfo.length) = .empty loc) :
    emplace c t v =
      (let t2 : Table K V := ⟨t.fastHashInfo.set loc (extractPartialHash (c.hasher v.1 % U64)),
          t.redirectInfo.set loc
            (c.hasher v.1 % U64 % c.redirMod, ((t.arr ++ [v]).length - 1) % c.redirMod),
          t.arr ++ [v], t.totalElements, t.rehashCounter⟩
       let t3 : Table K V := if MaxLoadNum * t2.fastHashInfo.length < t2.arr.length * 2 ^ 24
          then rebalance t2 else t2
       EmplaceRes.ok ⟨t3.fastHashInfo, t3.redirectInfo, t3.arr, t3.totalElements + 1,
          t3.rehashCounter⟩ ⟨(t.arr ++ [v]).length - 1, false, some loc, t.rehashCounter⟩) := by
  unfold emplace
  rw [allocIfUnset_of_ne t halloc]
  simp only []
  rw [if_neg hg, hp]


/-! ### Concrete configurations used by the counterexamples and witnesses -/

/-- A `Cfg` for `Key = int` style tables: an injected hash function, `BIG`
off, arithmetic key. -/
def natCfg (f : Nat → Nat) : Cfg Nat := ⟨f, false, true⟩

/-- The hash function used by the erase/rehash scenarios: keys 1, 2, 3 hash
to 5, 6, 1029 (1029 = 5 + 1024, so keys 1 and 3 share the start bucket 5 of a
1024-bucket table). -/
def h3 : Nat → Nat := fun k => if k = 1 then 5 else if k = 2 then 6 else if k = 3 then 1029 else k

/-- Configuration for the erase/rehash scenarios. -/
def c3x : Cfg Nat := natCfg h3

/-! ### Claim C6 -/

/-- C6 (counterexample): `force_rehash` on an empty table is not always a
no-op.  On the empty table constructed with size hint 1025, `force_rehash`
shrinks the bucket count from 1025 to 1024. -/
theorem C6_empty_rehash_counterexample :
    (mkHinted Nat Nat 1025).arr = [] ∧
    (mkHinted Nat Nat 1025).totalElements = 0 ∧
    (mkHinted Nat Nat 1025).fastHashInfo.length = 1025 ∧
    (rebalance (mkHinted Nat Nat 1025)).fastHashInfo.length = 1024 := by
  have hlen : (mkHinted Nat Nat 1025).fastHashInfo.length = 1025 := by
    simp only [mkHinted, List.length_replicate]
    norm_num
  refine ⟨rfl, rfl, hlen, ?_⟩
  rw [rebalance_length, hlen]
  have harr : (mkHinted Nat Nat 1025).arr.length = 0 := rfl
  rw [harr]
  norm_num [MaxLoadNum]

/-- C6 (amended): a rehash sets the new bucket count to `B/2` when the load
is below the `0.40` threshold, to `B*2` when at least the `0.80` threshold,
and to `B` otherwise, always clamped to the 1024 floor (`0.40` and `0.80`
denote the stored float constants `MaxLoadBalance/2 = 13421773/2^25` and
`MaxLoadBalance = 13421773/2^24`); the data array and the element count are
never touched.  In particular `force_rehash` on an empty table at the
1024-bucket floor leaves the bucket count at 1024 (on an empty table with
more buckets it halves them, never below 1024), and on a table at 30 % load
it halves the bucket count, clamped to the 1024 floor. -/
theorem C6_rebalance_size_rule :
    (∀ (K V : Type) (t : Table K V),
      (rebalance t).fastHashInfo.length =
        max (if t.fastHashInfo.length = 0 then t.fastHashInfo.length
          else if t.arr.length * 2 ^ 25 < MaxLoadNum * t.fastHashInfo.length
            then t.fastHashInfo.length / 2
          else if MaxLoadNum * t.fastHashInfo.length ≤ t.arr.length * 2 ^ 24
            then t.fastHashInfo.length * 2
          else t.fastHashInfo.length) 1024 ∧
      (rebalance t).arr = t.arr ∧
      (rebalance t).totalElements = t.totalElements) ∧
    (∀ (K V : Type) (t : Table K V), t.arr = [] → t.fastHashInfo.length = 1024 →
      (rebalance t).fastHashInfo.length = 1024) ∧
    (∀ (K V : Type) (t : Table K V), 10 * t.arr.length = 3 * t.fastHashInfo.length →
      1024 ≤ t.fastHashInfo.length →
      (rebalance t).fastHashInfo.length = max (t.fastHashInfo.length / 2) 1024) := by
  refine ⟨fun K V t => ⟨rebalance_length t, rebalance_arr t, rebalance_totalElements t⟩,
    fun K V t he hB => ?_, fun K V t hload hB => ?_⟩
  · rw [rebalance_length, he, hB]
    norm_num [MaxLoadNum]
  · rw [rebalance_length]
    have hB0 : t.fastHashInfo.length ≠ 0 := by omega
    have hM : MaxLoadNum = 13421773 := rfl
    have h25 : (2 : Nat) ^ 25 = 33554432 := by norm_num
    have hshrink : t.arr.length * 2 ^ 25 < MaxLoadNum * t.fastHashInfo.length := by
      rw [hM, h25]
      omega
    rw [if_neg hB0, if_pos hshrink]

/-- Witness for the hypotheses of `C6_rebalance_size_rule`: a table at the
floor with 30 % load (1024 buckets cannot carry an integral 30 % load, so a
2560-bucket hinted table with 768 one-entry rows is used), and the empty
floor table. -/
theorem C6_witness :
    (rebalance (mkHinted Nat Nat 1024)).fastHashInfo.length = 1024 ∧
    (rebalance { mkHinted Nat Nat 2560 with
        arr := List.replicate 768 (0, 0) }).fastHashInfo.length = max (2560 / 2) 1024 := by
  have h1 : (mkHinted Nat Nat 1024).fastHashInfo.length = 1024 := by
    simp only [mkHinted, List.length_replicate]
    norm_num
  have h2 : ({ mkHinted Nat Nat 2560 with
      arr := List.replicate 768 ((0 : Nat), (0 : Nat)) } : Table Nat Nat).fastHashInfo.length
        = 2560 := by
    simp only [mkHinted, List.length_replicate]
    norm_num
  have h3 : ({ mkHinted Nat Nat 2560 with
      arr := List.replicate 768 ((0 : Nat), (0 : Nat)) } : Table Nat Nat).arr.length = 768 := by
    simp only [mkHinted, List.length_replicate]
  constructor
  · exact (C6_rebalance_size_rule.2.1) Nat Nat (mkHinted Nat Nat 1024) rfl h1
  · have h4 := (C6_rebalance_size_rule.2.2) Nat Nat
      ({ mkHinted Nat Nat 2560 with arr := List.replicate 768 ((0 : Nat), (0 : Nat)) })
      (by rw [h3, h2]) (by rw [h2]; norm_num)
    rw [h2] at h4
    exact h4

/-! ### Claim C10 -/

/-- C10: on any table holding zero elements — including a freshly constructed
table whose bucket arrays were never allocated — `find` returns `end()` and
`erase(k)` is a no-op returning `end()`, for every probe key; both guard on
the element count before any hashing or modulo by the bucket count. -/
theorem C10_empty_table_guards (K V : Type) [DecidableEq K] (c : Cfg K)
    (t : Table K V) (mt : MTable K V) (k : K) :
    (t.arr = [] → search c t k = some t.endIter ∧ eraseKey c t k = some (t, t.endIter)) ∧
    (mt.arr = [] → msearch c mt k = some mt.endIter ∧
      meraseKey c mt k = some (mt, mt.endIter)) := by
  constructor
  · intro h
    have hlen : t.arr.length = 0 := by rw [h]; rfl
    have hs : search c t k = some t.endIter := by rw [search, if_pos hlen]
    refine ⟨hs, ?_⟩
    unfold eraseKey
    rw [hs]
    show remove c t t.endIter true = some (t, t.endIter)
    unfold remove
    rw [if_pos hlen]
  · intro h
    have hlen : mt.arr.length = 0 := by rw [h]; rfl
    have hs : msearch c mt k = some mt.endIter := by rw [msearch, if_pos hlen]
    refine ⟨hs, ?_⟩
    unfold meraseKey
    rw [hs]
    show mremove c mt mt.endIter true = some (mt, mt.endIter)
    unfold mremove
    rw [if_pos hlen]

/-! ### Claim C8 -/

theorem emplace_overflow_iff [DecidableEq K] (c : Cfg K) (t : Table K V) (v : K × V) :
    (∃ t', emplace c t v = .overflow t') ↔
      (c.big = false ∧ (allocIfUnset t).arr.length = 2 ^ 32 - 2) := by
  constructor
  · rintro ⟨t', h⟩
    by_cases hc : c.big = false ∧ (allocIfUnset t).arr.length = 2 ^ 32 - 2
    · exact hc
    · unfold emplace at h
      rw [if_neg hc] at h
      simp only [] at h
      cases hp : probeLoop c (allocIfUnset t) (extractPartialHash (c.hasher v.1 % U64))
          (c.hasher v.1 % U64 % c.redirMod) v.1 (allocIfUnset t).fastHashInfo.length
          (c.hasher v.1 % U64 % (allocIfUnset t).fastHashInfo.length) with
      | out => rw [hp] at h; exact absurd h (by simp)
      | found loc => rw [hp] at h; exact absurd h (by simp)
      | empty loc => rw [hp] at h; exact absurd h (by simp)
  · intro hc
    exact ⟨allocIfUnset t, by unfold emplace; rw [if_pos hc]⟩

theorem emplace_overflow_state [DecidableEq K] (c : Cfg K) (t : Table K V) (v : K × V)
    (t' : Table K V) (h : emplace c t v = .overflow t') : t' = allocIfUnset t := by
  by_cases hc : c.big = false ∧ (allocIfUnset t).arr.length = 2 ^ 32 - 2
  · unfold emplace at h
    rw [if_pos hc] at h
    exact (EmplaceRes.overflow.injEq _ _).mp h.symm
  · unfold emplace at h
    rw [if_neg hc] at h
    simp only [] at h
    cases hp : probeLoop c (allocIfUnset t) (extractPartialHash (c.hasher v.1 % U64))
        (c.hasher v.1 % U64 % c.redirMod) v.1 (allocIfUnset t).fastHashInfo.length
        (c.hasher v.1 % U64 % (allocIfUnset t).fastHashInfo.length) with
    | out => rw [hp] at h; exact absurd h (by simp)
    | found loc => rw [hp] at h; exact absurd h (by simp)
    | empty loc => rw [hp] at h; exact absurd h (by simp)

/-- C8: on a non-BIG table, insertion throws exactly when `|data|` equals
`UINT32_MAX - 1 = 2^32 - 2` before the insertion; the check precedes every
mutation, so the state the exception leaves behind is the unchanged table.
On BIG tables the check is absent and insertion never fails this way.  (The
guard sits after the lazy allocation, so on an already-allocated table — the
only way a non-empty `arr` can arise — the state is entirely untouched.) -/
theorem C8_overflow_guard (K V : Type) [DecidableEq K] (c : Cfg K) (t : Table K V)
    (v : K × V) :
    (t.fastHashInfo.length ≠ 0 →
      (((∃ t', emplace c t v = .overflow t') ↔
          (c.big = false ∧ t.arr.length = 2 ^ 32 - 2)) ∧
        ∀ t', emplace c t v = .overflow t' → t' = t)) ∧
    (c.big = true → ∀ t', emplace c t v ≠ .overflow t') := by
  constructor
  · intro hB
    constructor
    · rw [emplace_overflow_iff, allocIfUnset_arr]
    · intro t' h
      rw [emplace_overflow_state c t v t' h, allocIfUnset_of_ne t hB]
  · intro hbig t' h
    have h2 := (emplace_overflow_iff c t v).mp ⟨t', h⟩
    rw [hbig] at h2
    exact absurd h2.1 (by simp)

/-- Witness for `C8_overflow_guard` on a small allocated non-BIG table: the
guard does not fire (the element count is far from `2^32 - 2`). -/
theorem C8_witness :
    ¬ (∃ t', emplace c3x (mkHinted Nat Nat 1024) (1, 5) = .overflow t') := by
  have h := (C8_overflow_guard Nat Nat c3x (mkHinted Nat Nat 1024) (1, 5)).1
    (by simp only [mkHinted, List.length_replicate]; norm_num)
  rw [h.1]
  rintro ⟨hbig, harr⟩
  have : (mkHinted Nat Nat 1024).arr.length = 0 := rfl
  omega

/-! ### Claim C2 -/

theorem search_found_inv [DecidableEq K] (c : Cfg K) (t : Table K V) (k : K) (it : Iter)
    (h : search c t k = some it) (hall : it.all = false) :
    ∃ loc, probeLoop c t (extractPartialHash (c.hasher k % U64))
        (c.hasher k % U64 % c.redirMod) k t.fastHashInfo.length
        (c.hasher k % U64 % t.fastHashInfo.length) = .found loc ∧
      it = ⟨t.getRedirectInfo loc, false, some loc, t.rehashCounter⟩ := by
  unfold search at h
  split at h
  · cases h
    simp [Table.endIter] at hall
  · simp only [] at h
    split at h
    · rename_i loc hp
      cases h
      exact ⟨loc, hp, rfl⟩
    · rename_i hp
      cases h
      simp [Table.endIter] at hall
    · exact absurd h (by simp)

/-- C2 (amended): on a single-variant table, inserting a second entry whose
key is already present returns the iterator of the already-stored element
(the same iterator `find` returns), performs no insertion and leaves the
whole table — size and the value stored for the key included — unchanged;
this holds provided the insertion does not first hit the non-BIG capacity
guard (`|data| = 2^32 - 2`), which throws before duplicate detection. -/
theorem C2_duplicate_insert_returns_existing (K V : Type) [DecidableEq K] (c : Cfg K)
    (t : Table K V) (k : K) (v' : V) (it : Iter)
    (hfound : search c t k = some it) (hall : it.all = false)
    (hnf : c.big = true ∨ t.arr.length ≠ 2 ^ 32 - 2) :
    emplace c t (k, v') = .ok t it := by
  obtain ⟨loc, hp, hit⟩ := search_found_inv c t k it hfound hall
  have hne : t.fastHashInfo.length ≠ 0 := by
    intro h0
    rw [h0] at hp
    simp [probeLoop] at hp
  have hg : ¬ (c.big = false ∧ t.arr.length = 2 ^ 32 - 2) := by
    rintro ⟨h1, h2⟩
    rcases hnf with h3 | h3
    · rw [h3] at h1
      simp at h1
    · exact h3 h2
  rw [hit]
  exact emplace_of_found c t (k, v') loc hne hg hp

/-- The number of filler entries of `capState` (kept behind a definition so
that no tactic attempts to materialise a four-billion-element list). -/
def capN : Nat := 2 ^ 32 - 3

/-- A non-BIG table one insertion short of the capacity cap: key 1 (hash 5)
sits at bucket 5 and `2^32 - 3` filler entries pad the data array to
`UINT32_MAX - 1` entries. -/
def capState : Table Nat Nat :=
  ⟨(List.replicate 1024 0).set 5 (extractPartialHash 5),
   (List.replicate 1024 (0, 0)).set 5 (5, 0),
   (1, 10) :: List.replicate capN (2, 20), 2 ^ 32 - 2, 0⟩

/-- C2 (counterexample): on `capState`, key 1 is present (`find` returns its
iterator, not `end`), yet inserting a second entry with key 1 does not return
the existing iterator — it throws the capacity overflow error first. -/
theorem C2_overflow_counterexample :
    search c3x capState 1 = some ⟨0, false, some 5, 0⟩ ∧
    (⟨0, false, some 5, 0⟩ : Iter).all = false ∧
    emplace c3x capState (1, 99) = .overflow capState := by
  have hlen_fast : capState.fastHashInfo.length = 1024 := by
    simp [capState, List.length_set, List.length_replicate]
  have hlen_arr : capState.arr.length = 2 ^ 32 - 2 := by
    show ((1, 10) :: List.replicate capN (2, 20)).length = 2 ^ 32 - 2
    rw [List.length_cons, List.length_replicate]
    norm_num [capN]
  have hpH5 : capState.getPartialHash 5 = extractPartialHash 5 := by
    show ((List.replicate 1024 0).set 5 (extractPartialHash 5)).getD 5 0 = _
    rw [getD_set_self _ 5 _ 0 (by rw [List.length_replicate]; norm_num)]
  have hred5 : capState.getRedirectInfo 5 = 0 := by
    show (((List.replicate 1024 (0, 0)).set 5 (5, 0)).getD 5 (0, 0)).2 = 0
    rw [getD_set_self _ 5 _ (0, 0) (by rw [List.length_replicate]; norm_num)]
  have hah : c3x.hasher 1 % U64 = 5 := by
    show h3 1 % U64 = 5
    decide
  have harr0 : capState.arr.get? 0 = some (1, 10) := rfl
  have hne : capState.getLocationEmpty 5 = false := by
    unfold Table.getLocationEmpty
    rw [hpH5]
    simp [extractPartialHash_ne_zero]
  have hdup : checkForDuplicate c3x capState 5 (extractPartialHash 5) (5 % c3x.redirMod) 1
      = true := by
    unfold checkForDuplicate comparePartialHashEx
    rw [hpH5, hred5, harr0]
    simp [c3x, natCfg]
  have hprobe : probeLoop c3x capState (extractPartialHash (c3x.hasher 1 % U64))
      (c3x.hasher 1 % U64 % c3x.redirMod) 1 capState.fastHashInfo.length
      (c3x.hasher 1 % U64 % capState.fastHashInfo.length) = .found 5 := by
    rw [hah, hlen_fast]
    have h5 : (5 : Nat) % 1024 = 5 := by norm_num
    rw [h5]
    exact probeLoop_found_step c3x capState _ _ 1 (by norm_num) hne hdup
  refine ⟨?_, rfl, ?_⟩
  · unfold search
    rw [if_neg (by rw [hlen_arr]; norm_num)]
    simp only []
    rw [hprobe]
    show (some (⟨capState.getRedirectInfo 5, false, some 5, capState.rehashCounter⟩ : Iter)
      : Option Iter) = some ⟨0, false, some 5, 0⟩
    rw [hred5]
    rfl
  · unfold emplace
    rw [allocIfUnset_of_ne capState (by rw [hlen_fast]; norm_num)]
    show (if c3x.big = false ∧ capState.arr.length = 2 ^ 32 - 2
      then EmplaceRes.overflow capState else _) = EmplaceRes.overflow capState
    rw [if_pos ⟨rfl, hlen_arr⟩]

/-- The table after `insert(1, "a"); insert(2, "b")` on an `int → string` map
with the `h3` hash function (scenario S1). -/
def s1Table : Table Nat String :=
  (insertAll c3x (Table.mkEmpty Nat String) [(1, "a"), (2, "b")]).getD
    (Table.mkEmpty Nat String)

/-- Witness for `C2_duplicate_insert_returns_existing` on scenario S1:
`insert(1,"a"); insert(2,"b"); insert(1,"c")` leaves the table unchanged with
`size == 2` and the value stored for key 1 still `"a"`. -/
theorem C2_witness :
    emplace c3x s1Table (1, "c") = .ok s1Table ⟨0, false, some 5, 0⟩ ∧
    s1Table.totalElements = 2 ∧ (s1Table.arr.getD 0 (0, "")).2 = "a" :=
  ⟨C2_duplicate_insert_returns_existing Nat String c3x s1Table 1 "c" ⟨0, false, some 5, 0⟩
      (by decide) rfl (Or.inr (by decide)),
   by decide, by decide⟩

/-! ### Claim C5 -/

theorem insertAll_cons [DecidableEq K] (c : Cfg K) (t : Table K V) (v : K × V)
    (l : List (K × V)) :
    insertAll c t (v :: l) =
      (match emplace c t v with
       | .ok t' _ => insertAll c t' l
       | _ => none) := by
  unfold insertAll
  rw [List.foldlM_cons]
  cases emplace c t v <;> rfl

theorem count_zero_set_ge : ∀ (l : List Nat) (i x : Nat),
    l.count 0 ≤ (l.set i x).count 0 + 1
  | [], _, _ => by simp
  | a :: l, 0, x => by
    simp only [List.set]
    rw [List.count_cons, List.count_cons]
    split_ifs <;> omega
  | a :: l, i + 1, x => by
    simp only [List.set]
    rw [List.count_cons, List.count_cons]
    have := count_zero_set_ge l i x
    split_ifs <;> omega

theorem exists_zero_slot (l : List Nat) (h : 0 < l.count 0) :
    ∃ i, i < l.length ∧ l.getD i 0 = 0 := by
  have hm : (0 : Nat) ∈ l := by
    by_contra hnm
    rw [List.count_eq_zero_of_not_mem hnm] at h
    omega
  obtain ⟨n, hn⟩ := List.mem_iff_get.mp hm
  refine ⟨n.1, n.2, ?_⟩
  rw [List.getD_eq_getElem?_getD, List.getElem?_eq_getElem n.2]
  simpa [List.get_eq_getElem] using hn

/-- If the probe walk runs out of fuel, every slot it visited was occupied. -/
theorem probeLoop_out_all [DecidableEq K] (c : Cfg K) (t : Table K V) (pH ex : Nat) (k : K) :
    ∀ (fuel loc : Nat), loc < t.fastHashInfo.length →
      probeLoop c t pH ex k fuel loc = .out →
      ∀ j < fuel, t.getPartialHash ((loc + j) % t.fastHashInfo.length) ≠ 0 := by
  intro fuel
  induction fuel with
  | zero => intro loc _ _ j hj; omega
  | succ n ih =>
    intro loc hloc h j hj
    rw [probeLoop] at h
    by_cases hemp : t.getLocationEmpty loc = true
    · simp [hemp] at h
    · rw [Bool.not_eq_true] at hemp
      by_cases hdup : checkForDuplicate c t loc pH ex k = true
      · simp [hemp, hdup] at h
      · rw [Bool.not_eq_true] at hdup
        simp [hemp, hdup] at h
        have hB : 0 < t.fastHashInfo.length := by omega
        cases j with
        | zero =>
          rw [Nat.add_zero, Nat.mod_eq_of_lt hloc]
          unfold Table.getLocationEmpty at hemp
          simpa using hemp
        | succ j =>
          have hjn : j < n := by omega
          have := ih ((loc + 1) % t.fastHashInfo.length) (Nat.mod_lt _ hB) h j hjn
          rw [Nat.mod_add_mod] at this
          rw [show loc + 1 + j = loc + (j + 1) from by omega] at this
          exact this

/-- With at least one empty slot and a start position inside range, the probe
walk with a full cycle of fuel cannot run out. -/
theorem probeLoop_not_out [DecidableEq K] (c : Cfg K) (t : Table K V) (pH ex : Nat) (k : K)
    (loc : Nat) (hloc : loc < t.fastHashInfo.length)
    (hcount : 0 < t.fastHashInfo.count 0) :
    probeLoop c t pH ex k t.fastHashInfo.length loc ≠ .out := by
  intro h
  obtain ⟨i, hi, hzero⟩ := exists_zero_slot _ hcount
  have hB : 0 < t.fastHashInfo.length := by omega
  have hall := probeLoop_out_all c t pH ex k t.fastHashInfo.length loc hloc h
    ((i + t.fastHashInfo.length - loc) % t.fastHashInfo.length) (Nat.mod_lt _ hB)
  apply hall
  rw [Nat.add_mod_mod]
  rw [show loc + (i + t.fastHashInfo.length - loc) = i + t.fastHashInfo.length from by omega]
  rw [Nat.add_mod_right, Nat.mod_eq_of_lt hi]
  exact hzero

/-- The invariant carried across the first 819 insertions: 1024 buckets, no
rehash yet, and at least `1024 - |arr|` empty slots. -/
def loadInv (t : Table K V) : Prop :=
  t.fastHashInfo.length = 1024 ∧ t.rehashCounter = 0 ∧
    1024 ≤ t.arr.length + t.fastHashInfo.count 0

theorem insertAll_no_rehash [DecidableEq K] (c : Cfg K) :
    ∀ (l : List (K × V)) (t : Table K V), loadInv t → t.arr.length + l.length ≤ 819 →
      ∃ t', insertAll c t l = some t' ∧ loadInv t' ∧
        t'.arr.length ≤ t.arr.length + l.length := by
  intro l
  induction l with
  | nil => intro t hI _; exact ⟨t, rfl, hI, Nat.le_refl _⟩
  | cons v l ih =>
    intro t hI hlen
    obtain ⟨hB, hrc, hcnt⟩ := hI
    have hlc : l.length + 1 = (v :: l).length := by rw [List.length_cons]
    have harr : t.arr.length ≤ 818 := by
      rw [List.length_cons] at hlen
      omega
    have halloc : t.fastHashInfo.length ≠ 0 := by rw [hB]; norm_num
    have hg : ¬ (c.big = false ∧ t.arr.length = 2 ^ 32 - 2) := by
      rintro ⟨_, h2⟩
      omega
    have hstart : c.hasher v.1 % U64 % t.fastHashInfo.length < t.fastHashInfo.length :=
      Nat.mod_lt _ (by omega)
    have hcount : 0 < t.fastHashInfo.count 0 := by omega
    rw [insertAll_cons]
    cases hp : probeLoop c t (extractPartialHash (c.hasher v.1 % U64))
        (c.hasher v.1 % U64 % c.redirMod) v.1 t.fastHashInfo.length
        (c.hasher v.1 % U64 % t.fastHashInfo.length) with
    | out => exact absurd hp (probeLoop_not_out c t _ _ v.1 _ hstart hcount)
    | found loc =>
      rw [emplace_of_found c t v loc halloc hg hp]
      obtain ⟨t', h1, h2, h3⟩ := ih t ⟨hB, hrc, hcnt⟩ (by rw [List.length_cons] at hlen; omega)
      refine ⟨t', h1, h2, ?_⟩
      rw [List.length_cons]
      omega
    | empty loc =>
      rw [emplace_of_empty c t v loc halloc hg hp]
      simp only []
      have hlen2 : (t.arr ++ [v]).length = t.arr.length + 1 := by
        rw [List.length_append, List.length_cons, List.length_nil]
      have hsetB : (t.fastHashInfo.set loc (extractPartialHash (c.hasher v.1 % U64))).length
          = 1024 := by
        rw [List.length_set, hB]
      have hnoreb : ¬ (MaxLoadNum *
          (t.fastHashInfo.set loc (extractPartialHash (c.hasher v.1 % U64))).length <
          (t.arr ++ [v]).length * 2 ^ 24) := by
        rw [hsetB, hlen2, show MaxLoadNum = 13421773 from rfl]
        omega
      rw [if_neg hnoreb]
      have hInv2 : loadInv (⟨t.fastHashInfo.set loc (extractPartialHash (c.hasher v.1 % U64)),
          t.redirectInfo.set loc
            (c.hasher v.1 % U64 % c.redirMod, ((t.arr ++ [v]).length - 1) % c.redirMod),
          t.arr ++ [v], t.totalElements + 1, t.rehashCounter⟩ : Table K V) := by
        refine ⟨hsetB, hrc, ?_⟩
        show 1024 ≤ (t.arr ++ [v]).length +
          (t.fastHashInfo.set loc (extractPartialHash (c.hasher v.1 % U64))).count 0
        have hc := count_zero_set_ge t.fastHashInfo loc (extractPartialHash (c.hasher v.1 % U64))
        rw [hlen2]
        omega
      obtain ⟨t', h1, h2, h3⟩ := ih _ hInv2 (by
        show (t.arr ++ [v]).length + l.length ≤ 819
        rw [hlen2]
        rw [List.length_cons] at hlen
        omega)
      refine ⟨t', ?_, h2, ?_⟩
      · show insertAll c _ l = some t'
        exact h1
      · rw [List.length_cons]
        rw [hlen2] at h3
        omega

/-- C5: starting from a default-constructed table (first allocation at the
1024 floor), inserting any sequence of at most 819 elements triggers zero
rehashes; and a single successful inserting `emplace` on a 1024-bucket
not-yet-rehashed table triggers a rehash exactly when the new load
`|data| / 1024` exceeds `MaxLoadBalance = 0.80f` — that is, exactly when the
new element count reaches 820. -/
theorem C5_load_threshold (K V : Type) [DecidableEq K] (c : Cfg K) (l : List (K × V))
    (hlen : l.length ≤ 819) :
    (∃ t, insertAll c (Table.mkEmpty K V) l = some t ∧ t.rehashCounter = 0 ∧
        t.arr.length ≤ l.length ∧ (l = [] ∨ t.fastHashInfo.length = 1024)) ∧
    (∀ (t t' : Table K V) (v : K × V) (it : Iter),
        t.fastHashInfo.length = 1024 → t.rehashCounter = 0 →
        emplace c t v = .ok t' it → t'.arr.length = t.arr.length + 1 →
        ((t'.rehashCounter = 1 ↔ MaxLoadNum * 1024 < t'.arr.length * 2 ^ 24) ∧
         (t'.rehashCounter = 1 ↔ 820 ≤ t'.arr.length))) := by
  constructor
  · cases l with
    | nil => exact ⟨Table.mkEmpty K V, rfl, rfl, Nat.le_refl _, Or.inl rfl⟩
    | cons v l =>
      have hstep : insertAll c (Table.mkEmpty K V) (v :: l) =
          insertAll c (allocIfUnset (Table.mkEmpty K V)) (v :: l) := by
        rw [insertAll_cons, insertAll_cons, emplace_allocIfUnset]
      have hInvA : loadInv (allocIfUnset (Table.mkEmpty K V) : Table K V) := by
        refine ⟨rfl, rfl, ?_⟩
        show 1024 ≤ ([] : List (K × V)).length + (List.replicate 1024 (0 : Nat)).count 0
        rw [List.count_replicate_self]
        norm_num
      obtain ⟨t', h1, ⟨hB', hrc', _⟩, h3⟩ := insertAll_no_rehash c (v :: l)
        (allocIfUnset (Table.mkEmpty K V)) hInvA (by
          show ([] : List (K × V)).length + (v :: l).length ≤ 819
          rw [List.length_nil]
          omega)
      rw [← hstep] at h1
      refine ⟨t', h1, hrc', ?_, Or.inr hB'⟩
      have h0 : (allocIfUnset (Table.mkEmpty K V) : Table K V).arr.length = 0 := rfl
      rw [h0, List.length_cons] at h3
      rw [List.length_cons]
      omega
  · intro t t' v it hB hrc he hgrow
    have halloc : t.fastHashInfo.length ≠ 0 := by rw [hB]; norm_num
    by_cases hg : c.big = false ∧ t.arr.length = 2 ^ 32 - 2
    · rw [emplace_allocIfUnset, allocIfUnset_of_ne t halloc] at he
      unfold emplace at he
      rw [allocIfUnset_of_ne t halloc] at he
      rw [if_pos hg] at he
      exact absurd he (by intro h; cases h)
    · cases hp : probeLoop c t (extractPartialHash (c.hasher v.1 % U64))
          (c.hasher v.1 % U64 % c.redirMod) v.1 t.fastHashInfo.length
          (c.hasher v.1 % U64 % t.fastHashInfo.length) with
      | out =>
        unfold emplace at he
        rw [allocIfUnset_of_ne t halloc] at he
        simp only [] at he
        rw [if_neg hg, hp] at he
        cases he
      | found loc =>
        rw [emplace_of_found c t v loc halloc hg hp] at he
        cases he
        omega
      | empty loc =>
        rw [emplace_of_empty c t v loc halloc hg hp] at he
        simp only [] at he
        have hsetB : (t.fastHashInfo.set loc
            (extractPartialHash (c.hasher v.1 % U64))).length = 1024 := by
          rw [List.length_set, hB]
        have hlen2 : (t.arr ++ [v]).length = t.arr.length + 1 := by
          rw [List.length_append, List.length_cons, List.length_nil]
        by_cases hcond : MaxLoadNum *
            (t.fastHashInfo.set loc (extractPartialHash (c.hasher v.1 % U64))).length <
            (t.arr ++ [v]).length * 2 ^ 24
        · rw [if_pos hcond] at he
          injection he with h1 h2
          have hrc2 : t'.rehashCounter = 1 := by
            rw [← h1]
            show (rebalance _).rehashCounter + 0 = 1
            rw [rebalance_rehashCounter]
            show t.rehashCounter + 1 + 0 = 1
            rw [hrc]
          have harr2 : t'.arr.length = t.arr.length + 1 := by
            rw [← h1]
            show (rebalance _).arr.length = t.arr.length + 1
            rw [rebalance_arr]
            exact hlen2
          rw [hsetB, hlen2] at hcond
          constructor
          · rw [hrc2, harr2]
            exact ⟨fun _ => hcond, fun _ => rfl⟩
          · rw [hrc2, harr2]
            refine ⟨fun _ => ?_, fun _ => rfl⟩
            rw [show MaxLoadNum = 13421773 from rfl] at hcond
            omega
        · rw [if_neg hcond] at he
          injection he with h1 h2
          have hrc2 : t'.rehashCounter = 0 := by
            rw [← h1]
            show t.rehashCounter + 0 = 0
            rw [hrc]
          have harr2 : t'.arr.length = t.arr.length + 1 := by
            rw [← h1]
            exact hlen2
          rw [hsetB, hlen2] at hcond
          constructor
          · rw [hrc2, harr2]
            constructor
            · intro h0
              exact absurd h0 (by omega)
            · intro h0
              exact absurd h0 hcond
          · rw [hrc2, harr2]
            constructor
            · intro h0
              exact absurd h0 (by omega)
            · intro h0
              rw [show MaxLoadNum = 13421773 from rfl] at hcond
              omega

/-- Witness for `C5_load_threshold`: one insertion into a fresh table stays
rehash-free with the 1024-bucket floor allocation. -/
theorem C5_witness :
    (([((1 : Nat), (10 : Nat))] : List (Nat × Nat)).length ≤ 819) ∧
    (∃ t, insertAll c3x (Table.mkEmpty Nat Nat) [(1, 10)] = some t ∧ t.rehashCounter = 0 ∧
        t.arr.length ≤ ([((1 : Nat), (10 : Nat))] : List (Nat × Nat)).length ∧
        (([((1 : Nat), (10 : Nat))] : List (Nat × Nat)) = [] ∨
          t.fastHashInfo.length = 1024)) :=
  ⟨by decide, (C5_load_threshold Nat Nat c3x [(1, 10)] (by decide)).1⟩

/-! ### Claims C3, C1 and C4: concrete erase scenarios -/

/-- The table after `insert(1,10); insert(2,20); insert(3,30)` under the `h3`
hash function: keys 1, 2, 3 sit at buckets 5, 6, 7 of the 1024-bucket array
(key 3 starts at bucket 5 = 1029 mod 1024 and probes past 5 and 6 to 7). -/
def t3 : Table Nat Nat :=
  (insertAll c3x (Table.mkEmpty Nat Nat) [(1, 10), (2, 20), (3, 30)]).getD
    (Table.mkEmpty Nat Nat)

/-- `t3` after `erase(1)`: the backward-shift loop stops at bucket 6 (key 2 is
at its desired spot), so bucket 5 stays empty while key 3 remains at bucket 7
with start position 5. -/
def t3e : Table Nat Nat :=
  ((eraseKey c3x t3 1).map Prod.fst).getD (Table.mkEmpty Nat Nat)

/-- Control bytes after `insert(1)` under `h3`: bucket 5 occupied. -/
def F1 : List Nat := (List.replicate 1024 0).set 5 (extractPartialHash 5)

/-- Redirect pairs after `insert(1)`: bucket 5 stores hash 5, value index 0. -/
def R1 : List (Nat × Nat) := (List.replicate 1024 (0, 0)).set 5 (5, 0)

/-- The table after `insert(1, 10)`. -/
def T1 : Table Nat Nat := ⟨F1, R1, [(1, 10)], 1, 0⟩

/-- Control bytes after `insert(2)` under `h3`: bucket 6 occupied too. -/
def F2 : List Nat := F1.set 6 (extractPartialHash 6)

/-- Redirect pairs after `insert(2)`: bucket 6 stores hash 6, value index 1. -/
def R2 : List (Nat × Nat) := R1.set 6 (6, 1)

/-- The table after `insert(1, 10); insert(2, 20)` under `h3`. -/
def T2 : Table Nat Nat := ⟨F2, R2, [(1, 10), (2, 20)], 2, 0⟩

/-- Control bytes after `insert(3)` under `h3`: key 3 (hash 1029, start 5)
probes past 5 and 6 into bucket 7. -/
def F3 : List Nat := F2.set 7 (extractPartialHash 1029)

/-- Redirect pairs after `insert(3)`: bucket 7 stores hash 1029, value
index 2. -/
def R3 : List (Nat × Nat) := R2.set 7 (1029, 2)

/-- The table after all three inserts under `h3`. -/
def T3 : Table Nat Nat := ⟨F3, R3, [(1, 10), (2, 20), (3, 30)], 3, 0⟩

/-- Control bytes after `erase(1)`: bucket 5 cleared, the backward shift
stops at bucket 6 (distance 0) and moves nothing. -/
def F3E : List Nat := F3.set 5 0

/-- Redirect pairs after `erase(1)`: the bucket of the last entry (bucket 7)
is patched to value index 0 after the swap-and-pop. -/
def R3E : List (Nat × Nat) := R3.set 7 (1029, 0)

/-- The table after `insert(1); insert(2); insert(3); erase(1)` under `h3`. -/
def T3E : Table Nat Nat := ⟨F3E, R3E, [(3, 30), (2, 20)], 2, 0⟩

theorem emp1_eq : emplace c3x (Table.mkEmpty Nat Nat) (1, 10) =
    .ok T1 ⟨0, false, some 5, 0⟩ := rfl

theorem emp2_eq : emplace c3x T1 (2, 20) = .ok T2 ⟨1, false, some 6, 0⟩ := rfl

theorem emp3_eq : emplace c3x T2 (3, 30) = .ok T3 ⟨2, false, some 7, 0⟩ := rfl

theorem ins3_eq : insertAll c3x (Table.mkEmpty Nat Nat) [(1, 10), (2, 20), (3, 30)]
    = some T3 := by
  rw [insertAll_cons, emp1_eq]
  show insertAll c3x T1 [(2, 20), (3, 30)] = some T3
  rw [insertAll_cons, emp2_eq]
  show insertAll c3x T2 [(3, 30)] = some T3
  rw [insertAll_cons, emp3_eq]
  rfl

theorem t3_eq : t3 = T3 := by
  unfold t3
  rw [ins3_eq]
  rfl

theorem erase3_eq : eraseKey c3x T3 1 = some (T3E, ⟨2, true, none, 0⟩) := rfl

theorem t3e_eq : t3e = T3E := by
  unfold t3e
  rw [t3_eq, erase3_eq]
  rfl

/-- C3: refuted — after the insert/erase sequence `insert(1); insert(2);
insert(3); erase(1)` under `h3`, the table still holds two elements but the
probing invariant fails: bucket 7 is occupied with start position 5, and
bucket 5 on its probe path is empty.  The backward-shift loop of `remove`
stops at any slot at distance 0 (here bucket 6), which is only sound for
Robin-Hood tables, not for this FIFO-probing table. -/
theorem C3_probing_invariant_violated :
    (insertAll c3x (Table.mkEmpty Nat Nat) [(1, 10), (2, 20), (3, 30)]).isSome = true ∧
    (eraseKey c3x t3 1).isSome = true ∧
    t3e.totalElements = 2 ∧
    t3e.arr.length = 2 ∧
    ¬ probingInvariant t3e := by
  refine ⟨by rw [ins3_eq]; rfl, by rw [t3_eq, erase3_eq]; rfl, by rw [t3e_eq]; rfl,
    by rw [t3e_eq]; rfl, ?_⟩
  rw [t3e_eq]
  intro h
  exact h 7 (by decide) (by decide) 0 (Nat.zero_le _) (by decide)

/-- The probe loop of `specialInsert` stops at once on an empty target
slot. -/
theorem siProbe_hit (nh : List Nat) {fuel loc : Nat} (hf : fuel ≠ 0)
    (h : nh.getD loc 0 = 0) : siProbe nh fuel loc = some loc := by
  cases fuel with
  | zero => exact absurd rfl hf
  | succ n =>
    show (if nh.getD loc 0 = 0 then some loc
      else siProbe nh n ((loc + 1) % nh.length)) = some loc
    rw [if_pos h]

/-- Source buckets with a zero control byte contribute nothing to the
rehash fold. -/
theorem foldl_si_skip (t : Table K V) :
    ∀ (l : List Nat) (start : List Nat × List (Nat × Nat)),
      (∀ i ∈ l, t.getPartialHash i = 0) →
      l.foldl (fun acc i => if t.getPartialHash i = 0 then acc else specialInsert t i acc)
        start = start
  | [], _, _ => rfl
  | a :: l, start, h => by
    rw [List.foldl_cons, if_pos (h a (List.mem_cons_self a l))]
    exact foldl_si_skip t l start (fun i hi => h i (List.mem_cons_of_mem a hi))

/-- Control bytes after `force_rehash` on `T3E`: keys 2 and 3 reprobe from
their stored hashes into buckets 6 and 5. -/
def FR : List Nat := ((List.replicate 1024 0).set 6 (extractPartialHash 6)).set 5
  (extractPartialHash 1029)

/-- Redirect pairs after `force_rehash` on `T3E`. -/
def RR : List (Nat × Nat) := ((List.replicate 1024 (0, 0)).set 6 (6, 1)).set 5 (1029, 0)

/-- `T3E` after `force_rehash`. -/
def TR : Table Nat Nat := ⟨FR, RR, [(3, 30), (2, 20)], 2, 1⟩

theorem hmap_T3E : ∀ i ∈ List.map (fun j => 8 + j) (List.range 1016),
    T3E.getPartialHash i = 0 := by
  intro i hi
  obtain ⟨j, hj, hij⟩ := List.mem_map.mp hi
  have hjlt : j < 1016 := List.mem_range.mp hj
  subst hij
  show F3E.getD (8 + j) 0 = 0
  unfold F3E F3 F2 F1
  rw [getD_set_ne _ _ _ (by omega), getD_set_ne _ _ _ (by omega),
    getD_set_ne _ _ _ (by omega), getD_set_ne _ _ _ (by omega),
    getD_replicate _ _ (by omega)]

theorem fold_T3E : (List.range 1024).foldl
    (fun acc i => if T3E.getPartialHash i = 0 then acc else specialInsert T3E i acc)
    (List.replicate 1024 0, List.replicate 1024 (0, 0)) = (FR, RR) := by
  rw [(by decide : List.range 1024 =
    List.range 6 ++ ([6, 7] ++ List.map (fun j => 8 + j) (List.range 1016)))]
  rw [List.foldl_append, List.foldl_append]
  rw [foldl_si_skip T3E (List.range 6) _ (by decide)]
  rw [show ([6, 7] : List Nat).foldl
    (fun acc i => if T3E.getPartialHash i = 0 then acc else specialInsert T3E i acc)
    (List.replicate 1024 0, List.replicate 1024 (0, 0)) = (FR, RR) from rfl]
  exact foldl_si_skip T3E _ _ hmap_T3E

theorem reb_T3E : rebalance T3E = TR := by
  unfold rebalance
  simp only []
  rw [show T3E.fastHashInfo.length = 1024 from by decide,
    show T3E.arr.length = 2 from rfl]
  rw [if_neg (by norm_num : ¬ (1024 : Nat) = 0)]
  rw [if_pos (by norm_num [MaxLoadNum] : (2 : Nat) * 2 ^ 25 < MaxLoadNum * 1024)]
  rw [show max (1024 / 2) 1024 = 1024 from by decide]
  rw [fold_T3E]
  rfl

theorem search_T3E : search c3x T3E 3 = some ⟨2, true, none, 0⟩ := rfl

theorem search_TR : search c3x TR 3 = some ⟨0, false, some 5, 1⟩ := rfl

/-- C1: refuted — `force_rehash` (`rebalance`) on `t3e` preserves `size()` and
the dense data array, but does not leave `find` equivalent: before the rehash
`find(3)` returns `end()` (index 2 = `arr.size()`), after it `find(3)` returns
a real iterator (index 0, bucket 5), because the rehash reprobes key 3 from
its stored hash and thereby repairs the probe gap left behind by `erase(1)`. -/
theorem C1_force_rehash_changes_find :
    (rebalance t3e).arr = t3e.arr ∧
    (rebalance t3e).totalElements = t3e.totalElements ∧
    search c3x t3e 3 = some t3e.endIter ∧
    t3e.endIter.index = t3e.arr.length ∧
    search c3x (rebalance t3e) 3 = some ⟨0, false, some 5, 1⟩ ∧
    (⟨0, false, some 5, 1⟩ : Iter).index ≠ (rebalance t3e).endIter.index := by
  refine ⟨rebalance_arr t3e, rebalance_totalElements t3e, ?_, ?_, ?_, ?_⟩
  · rw [t3e_eq]
    exact search_T3E
  · rw [t3e_eq]
    rfl
  · rw [t3e_eq, reb_T3E]
    exact search_TR
  · rw [t3e_eq, reb_T3E]
    decide

/-- The hash function of the C4 scenario: keys 1, 2 hash to 5 and 1029, so
both start at bucket 5 of a 1024-bucket table and key 2 is displaced to 6. -/
def h4 : Nat → Nat := fun k => if k = 1 then 5 else if k = 2 then 1029 else k

/-- Configuration for the C4 scenario. -/
def c4x : Cfg Nat := natCfg h4

/-- The table after `insert(1,10); insert(2,20)` under `h4`. -/
def t4 : Table Nat Nat :=
  (insertAll c4x (Table.mkEmpty Nat Nat) [(1, 10), (2, 20)]).getD (Table.mkEmpty Nat Nat)

/-- `t4` after `erase(1)`: the backward-shift loop copies bucket 6 into bucket
5 but never clears the final vacated slot 6. -/
def t4e : Table Nat Nat :=
  ((eraseKey c4x t4 1).map Prod.fst).getD (Table.mkEmpty Nat Nat)

/-- Control bytes after `insert(2)` under `h4`: key 2 (hash 1029, start 5) is
displaced into bucket 6. -/
def F4 : List Nat := F1.set 6 (extractPartialHash 1029)

/-- Redirect pairs after `insert(2)` under `h4`. -/
def R4 : List (Nat × Nat) := R1.set 6 (1029, 1)

/-- The table after both inserts under `h4`. -/
def U2 : Table Nat Nat := ⟨F4, R4, [(1, 10), (2, 20)], 2, 0⟩

/-- Control bytes after `erase(1)` under `h4`: bucket 5 is cleared, then the
backward shift copies the displaced bucket 6 into it — and bucket 6 keeps its
control byte. -/
def FUE : List Nat := (F4.set 5 0).set 5 (extractPartialHash 1029)

/-- Redirect pairs after `erase(1)` under `h4`: the swap-pop patch writes
value index 0 into bucket 6, then the backward shift copies that pair into
bucket 5 as well. -/
def RUE : List (Nat × Nat) := (R4.set 6 (1029, 0)).set 5 (1029, 0)

/-- The table after `insert(1); insert(2); erase(1)` under `h4`. -/
def U2E : Table Nat Nat := ⟨FUE, RUE, [(2, 20)], 1, 0⟩

theorem emp1x_eq : emplace c4x (Table.mkEmpty Nat Nat) (1, 10) =
    .ok T1 ⟨0, false, some 5, 0⟩ := rfl

theorem emp2x_eq : emplace c4x T1 (2, 20) = .ok U2 ⟨1, false, some 6, 0⟩ := rfl

theorem ins4_eq : insertAll c4x (Table.mkEmpty Nat Nat) [(1, 10), (2, 20)]
    = some U2 := by
  rw [insertAll_cons, emp1x_eq]
  show insertAll c4x T1 [(2, 20)] = some U2
  rw [insertAll_cons, emp2x_eq]
  rfl

theorem t4_eq : t4 = U2 := by
  unfold t4
  rw [ins4_eq]
  rfl

theorem erase4_eq : eraseKey c4x U2 1 = some (U2E, ⟨1, true, none, 0⟩) := rfl

theorem t4e_eq : t4e = U2E := by
  unfold t4e
  rw [t4_eq, erase4_eq]
  rfl

/-- C4: refuted — after `insert(1); insert(2); erase(1)` under `h4` the data
array holds a single entry (index range `{0}`), yet buckets 5 and 6 are both
occupied and both carry `value_idx = 0`: the redirect indices of the occupied
buckets are not a permutation of `{0, ..., |data|-1}`, because the
backward-shift loop of `remove` copies a slot one place back without clearing
the slot it vacated. -/
theorem C4_redirect_not_permutation :
    (insertAll c4x (Table.mkEmpty Nat Nat) [(1, 10), (2, 20)]).isSome = true ∧
    (eraseKey c4x t4 1).isSome = true ∧
    t4e.arr.length = 1 ∧
    t4e.getLocationEmpty 5 = false ∧
    t4e.getLocationEmpty 6 = false ∧
    t4e.getRedirectInfo 5 = 0 ∧
    t4e.getRedirectInfo 6 = 0 := by
  refine ⟨by rw [ins4_eq]; rfl, by rw [t4_eq, erase4_eq]; rfl, by rw [t4e_eq]; rfl,
    by rw [t4e_eq]; decide, by rw [t4e_eq]; decide,
    by rw [t4e_eq]; decide, by rw [t4e_eq]; decide⟩

/-! ### Claim C7 -/

theorem mprobeLoop_found_step [DecidableEq K] (c : Cfg K) (t : MTable K V) (pH ex : Nat)
    (k : K) {fuel loc : Nat} (hf : fuel ≠ 0) (hne : t.getLocationEmpty loc = false)
    (hdup : mcheckForDuplicate c t loc pH ex k = true) :
    mprobeLoop c t pH ex k fuel loc = .found loc := by
  cases fuel with
  | zero => exact absurd rfl hf
  | succ n => simp [mprobeLoop, hne, hdup]

theorem mprobeLoop_empty_step [DecidableEq K] (c : Cfg K) (t : MTable K V) (pH ex : Nat)
    (k : K) {fuel loc : Nat} (hf : fuel ≠ 0) (hemp : t.getLocationEmpty loc = true) :
    mprobeLoop c t pH ex k fuel loc = .empty loc := by
  cases fuel with
  | zero => exact absurd rfl hf
  | succ n => simp [mprobeLoop, hemp]

theorem mlastSpotLoop_found_step (c : Cfg K) (t : MTable K V) (lp lex : Nat)
    {fuel loc : Nat} (hf : fuel ≠ 0)
    (hcond : t.getPartialHash loc = lp ∧ mcomparePartialHashEx c t loc lex = true ∧
      t.getRedirectInfo loc = t.arr.length - 1) :
    mlastSpotLoop c t lp lex fuel loc = some loc := by
  cases fuel with
  | zero => exact absurd rfl hf
  | succ n => simp [mlastSpotLoop, hcond]

theorem mshiftLoop_empty_step (t : MTable K V) (prev cur : Nat) {fuel : Nat}
    (hf : fuel ≠ 0) (hemp : t.getLocationEmpty cur = true) :
    mshiftLoop t prev cur fuel = some t := by
  cases fuel with
  | zero => exact absurd rfl hf
  | succ n => simp [mshiftLoop, hemp]

theorem mallocIfUnset_of_ne (t : MTable K V) (h : t.fastHashInfo.length ≠ 0) :
    mallocIfUnset t = t := by
  simp [mallocIfUnset, h]

/-- The canonical state of a MULTI table holding a single bucket for key `k`
with entry list `lst` and element count `n`, as produced by repeatedly
inserting key `k` into an empty table. -/
def mstate (c : Cfg K) (k : K) (lst : List (K × V)) (n : Nat) : MTable K V :=
  ⟨(List.replicate 1024 0).set (c.hasher k % U64 % 1024)
     (extractPartialHash (c.hasher k % U64)),
   (List.replicate 1024 (0, 0)).set (c.hasher k % U64 % 1024)
     (c.hasher k % U64 % c.redirMod, 0),
   [lst], [k], n, 0⟩

theorem mstate_fast_length (c : Cfg K) (k : K) (lst : List (K × V)) (n : Nat) :
    (mstate c k lst n).fastHashInfo.length = 1024 := by
  simp [mstate, List.length_set, List.length_replicate]

theorem mod1024_lt (a : Nat) : a % 1024 < 1024 := Nat.mod_lt _ (by norm_num)

theorem mstate_pHash (c : Cfg K) (k : K) (lst : List (K × V)) (n : Nat) :
    (mstate c k lst n).getPartialHash (c.hasher k % U64 % 1024) =
      extractPartialHash (c.hasher k % U64) := by
  show ((List.replicate 1024 0).set (c.hasher k % U64 % 1024)
     (extractPartialHash (c.hasher k % U64))).getD (c.hasher k % U64 % 1024) 0 = _
  rw [getD_set_self _ _ _ 0 (by rw [List.length_replicate]; exact mod1024_lt _)]

theorem mstate_redir (c : Cfg K) (k : K) (lst : List (K × V)) (n : Nat) :
    (mstate c k lst n).redirectInfo.getD (c.hasher k % U64 % 1024) (0, 0) =
      (c.hasher k % U64 % c.redirMod, 0) := by
  show ((List.replicate 1024 (0, 0)).set (c.hasher k % U64 % 1024)
     (c.hasher k % U64 % c.redirMod, 0)).getD (c.hasher k % U64 % 1024) (0, 0) = _
  rw [getD_set_self _ _ _ (0, 0) (by rw [List.length_replicate]; exact mod1024_lt _)]

theorem mstate_not_empty (c : Cfg K) (k : K) (lst : List (K × V)) (n : Nat) :
    (mstate c k lst n).getLocationEmpty (c.hasher k % U64 % 1024) = false := by
  unfold MTable.getLocationEmpty
  rw [mstate_pHash]
  simp [extractPartialHash_ne_zero]

theorem mstate_dup [DecidableEq K] (c : Cfg K) (k : K) (lst : List (K × V)) (n : Nat) :
    mcheckForDuplicate c (mstate c k lst n) (c.hasher k % U64 % 1024)
      (extractPartialHash (c.hasher k % U64)) (c.hasher k % U64 % c.redirMod) k = true := by
  unfold mcheckForDuplicate mcomparePartialHashEx
  rw [mstate_pHash]
  unfold MTable.getPartialHashEx MTable.getRedirectInfo
  rw [mstate_redir]
  show (_ && _ && (match ([k] : List K).get? 0 with
    | some k' => k' == k
    | none => false)) = true
  simp

theorem mstate_probe_found [DecidableEq K] (c : Cfg K) (k : K) (lst : List (K × V)) (n : Nat) :
    mprobeLoop c (mstate c k lst n) (extractPartialHash (c.hasher k % U64))
      (c.hasher k % U64 % c.redirMod) k (mstate c k lst n).fastHashInfo.length
      (c.hasher k % U64 % (mstate c k lst n).fastHashInfo.length) =
      .found (c.hasher k % U64 % 1024) := by
  rw [mstate_fast_length]
  exact mprobeLoop_found_step c _ _ _ k (by norm_num) (mstate_not_empty c k lst n)
    (mstate_dup c k lst n)

theorem memplace_mstate [DecidableEq K] (c : Cfg K) (k : K) (v : V)
    (lst : List (K × V)) (n : Nat) :
    memplace c (mstate c k lst n) (k, v) =
      .ok (mstate c k (lst ++ [(k, v)]) (n + 1))
        ⟨0, false, lst.length, some (c.hasher k % U64 % 1024), 0⟩ := by
  unfold memplace
  rw [mallocIfUnset_of_ne _ (by rw [mstate_fast_length]; norm_num)]
  simp only []
  rw [if_neg (by
    rintro ⟨h1, h2⟩
    have : (mstate c k lst n).arr.length = 1 := rfl
    omega)]
  rw [mstate_probe_found c k lst n]
  show MEmplaceRes.ok _ _ = _
  unfold MTable.getRedirectInfo
  rw [mstate_redir]
  rfl

theorem memplace_first [DecidableEq K] (c : Cfg K) (k : K) (v : V) :
    memplace c (MTable.mkEmpty K V) (k, v) =
      .ok (mstate c k [(k, v)] 1) ⟨0, false, 0, some (c.hasher k % U64 % 1024), 0⟩ := by
  unfold memplace
  have hA : mallocIfUnset (MTable.mkEmpty K V) =
      ⟨List.replicate 1024 0, List.replicate 1024 (0, 0), [], [], 0, 0⟩ := rfl
  rw [hA]
  simp only []
  rw [if_neg (by
    rintro ⟨h1, h2⟩
    simp at h2)]
  have hemp : (⟨List.replicate 1024 0, List.replicate 1024 (0, 0), [], [], 0, 0⟩
      : MTable K V).getLocationEmpty (c.hasher k % U64 %
        (⟨List.replicate 1024 0, List.replicate 1024 (0, 0), [], [], 0, 0⟩
          : MTable K V).fastHashInfo.length) = true := by
    unfold MTable.getLocationEmpty MTable.getPartialHash
    show ((List.replicate 1024 0).getD (c.hasher k % U64 % (List.replicate 1024 0).length) 0
      == 0) = true
    rw [getD_replicate 0 0 (by rw [List.length_replicate]; exact mod1024_lt _)]
    rfl
  rw [mprobeLoop_empty_step c _ _ _ k (by
    show (List.replicate 1024 (0 : Nat)).length ≠ 0
    rw [List.length_replicate]
    norm_num) hemp]
  simp only []
  have hcond : ¬ (MaxLoadNum * ((List.replicate 1024 (0 : Nat)).set
      (c.hasher k % U64 % (⟨List.replicate 1024 0, List.replicate 1024 (0, 0), [], [], 0, 0⟩
          : MTable K V).fastHashInfo.length)
      (extractPartialHash (c.hasher k % U64))).length
      < (([] : List (List (K × V))) ++ [[(k, v)]]).length * 2 ^ 24) := by
    rw [List.length_set, List.length_replicate]
    norm_num [MaxLoadNum]
  rw [if_neg hcond]
  unfold mstate
  have hlen : (⟨List.replicate 1024 0, List.replicate 1024 (0, 0), [], [], 0, 0⟩
      : MTable K V).fastHashInfo.length = 1024 := by
    show (List.replicate 1024 (0 : Nat)).length = 1024
    rw [List.length_replicate]
  rw [hlen]
  rw [show (([] ++ [[(k, v)]] : List (List (K × V))).length - 1) % c.redirMod = 0 by
    simp]
  rfl

theorem msearch_mstate [DecidableEq K] (c : Cfg K) (k : K) (lst : List (K × V)) (n : Nat) :
    msearch c (mstate c k lst n) k =
      some ⟨0, false, 0, some (c.hasher k % U64 % 1024), 0⟩ := by
  unfold msearch
  rw [if_neg (show ¬ ((mstate c k lst n).arr.length = 0) from by
    rw [show (mstate c k lst n).arr.length = 1 from rfl]
    norm_num)]
  simp only []
  rw [mstate_probe_found]
  show some (⟨(mstate c k lst n).getRedirectInfo (c.hasher k % U64 % 1024), false, 0,
    some (c.hasher k % U64 % 1024), (mstate c k lst n).rehashCounter⟩ : MIter) = _
  unfold MTable.getRedirectInfo
  rw [mstate_redir]
  rfl

theorem mshiftLoop_stop {T : MTable K V} {prev cur fuel : Nat} (hf : fuel ≠ 0)
    (hemp : T.fastHashInfo.getD cur 0 = 0) : mshiftLoop T prev cur fuel = some T := by
  cases fuel with
  | zero => exact absurd rfl hf
  | succ m =>
    rw [mshiftLoop]
    rw [if_pos (show T.getLocationEmpty cur = true from by
      unfold MTable.getLocationEmpty MTable.getPartialHash
      rw [hemp]
      rfl)]

theorem meraseKey_mstate [DecidableEq K] (c : Cfg K) (k : K) (lst : List (K × V)) (n : Nat)
    (p : K × V) (hlast : lst.getLast? = some p) (hkey : p.1 = k) :
    ∃ t', meraseKey c (mstate c k lst n) k = some (t', t'.endIter) ∧
      t'.totalElements = n - lst.length ∧ t'.arr = [] ∧ t'.extraKeyStorage = [] := by
  unfold meraseKey
  rw [msearch_mstate]
  show ∃ t', mremove c (mstate c k lst n)
    ⟨0, false, 0, some (c.hasher k % U64 % 1024), 0⟩ true = some (t', t'.endIter) ∧
      t'.totalElements = n - lst.length ∧ t'.arr = [] ∧ t'.extraKeyStorage = []
  have harr1 : (mstate c k lst n).arr.length = 1 := rfl
  have hrc : (mstate c k lst n).rehashCounter = 0 := rfl
  unfold mremove
  rw [if_neg (by rw [harr1]; norm_num)]
  rw [if_neg (show ¬ ((0 : Nat) = (mstate c k lst n).arr.length) from by
    rw [harr1]; norm_num)]
  simp only []
  rw [if_neg (show ¬ ((true = false) ∧
    1 < ((mstate c k lst n).arr.getD 0 []).length) from by simp)]
  rw [if_neg (show ¬ (((⟨0, false, 0, some (c.hasher k % U64 % 1024), 0⟩ : MIter).rehashCounter
      ≠ (mstate c k lst n).rehashCounter) ∨
      ((⟨0, false, 0, some (c.hasher k % U64 % 1024), 0⟩ : MIter).bucketIndex = none)) from by
    rw [hrc]; simp)]
  simp only []
  rw [if_neg (show ¬ ((0 : Nat) = (mstate c k lst n).arr.length) from by
    rw [harr1]; norm_num)]
  have hlk : (((mstate c k lst n).arr.getLast?).bind mlastKey : Option K) = some k := by
    show mlastKey lst = some k
    unfold mlastKey
    rw [hlast]
    show some p.1 = some k
    rw [hkey]
  rw [hlk]
  simp only []
  rw [mstate_fast_length]
  rw [mlastSpotLoop_found_step c (mstate c k lst n)
    (extractPartialHash (c.hasher k % U64)) (c.hasher k % U64 % c.redirMod)
    (by norm_num)
    ⟨mstate_pHash c k lst n, by
      unfold mcomparePartialHashEx MTable.getPartialHashEx
      rw [mstate_redir]
      simp, by
      unfold MTable.getRedirectInfo
      rw [mstate_redir, harr1]⟩]
  simp only []
  rw [mshiftLoop_stop]
  · exact ⟨_, rfl, rfl, rfl, rfl⟩
  · rw [List.length_set, mstate_fast_length]
    norm_num
  · rw [List.length_set, mstate_fast_length]
    rw [getD_set_ne _ _ _ (Ne.symm (succ_mod_ne (by norm_num) (mod1024_lt _)))]
    rw [show (mstate c k lst n).fastHashInfo = (List.replicate 1024 0).set
      (c.hasher k % U64 % 1024) (extractPartialHash (c.hasher k % U64)) from rfl]
    rw [getD_set_ne _ _ _ (Ne.symm (succ_mod_ne (by norm_num) (mod1024_lt _)))]
    rw [getD_replicate 0 0 (mod1024_lt _)]

theorem minsertAll_cons [DecidableEq K] (c : Cfg K) (t : MTable K V) (v : K × V)
    (l : List (K × V)) :
    minsertAll c t (v :: l) =
      (match memplace c t v with
       | .ok t' _ => minsertAll c t' l
       | _ => none) := by
  unfold minsertAll
  rw [List.foldlM_cons]
  cases memplace c t v <;> rfl

theorem minsertAll_dups [DecidableEq K] (c : Cfg K) (k : K) :
    ∀ (ws : List V) (lst : List (K × V)) (n : Nat),
      minsertAll c (mstate c k lst n) (ws.map (fun v => (k, v))) =
        some (mstate c k (lst ++ ws.map (fun v => (k, v))) (n + ws.length)) := by
  intro ws
  induction ws with
  | nil =>
    intro lst n
    show some (mstate c k lst n) = some (mstate c k (lst ++ []) (n + 0))
    rw [List.append_nil]
    rfl
  | cons w ws ih =>
    intro lst n
    rw [show ((w :: ws).map (fun v => (k, v))) = (k, w) :: ws.map (fun v => (k, v)) from rfl]
    rw [minsertAll_cons, memplace_mstate]
    show minsertAll c (mstate c k (lst ++ [(k, w)]) (n + 1)) (ws.map (fun v => (k, v))) = _
    rw [ih (lst ++ [(k, w)]) (n + 1)]
    rw [List.append_assoc]
    rw [show (n + 1) + ws.length = n + (w :: ws).length from by
      rw [List.length_cons]; omega]
    rfl

theorem map_key_getLast (k : K) :
    ∀ (l : List V) (a : V), ∃ q : K × V,
      ((k, a) :: l.map (fun v => (k, v))).getLast? = some q ∧ q.1 = k := by
  intro l
  induction l with
  | nil => exact fun a => ⟨(k, a), rfl, rfl⟩
  | cons b l ih =>
    intro a
    obtain ⟨q, hq, hk⟩ := ih b
    refine ⟨q, ?_, hk⟩
    show ((k, a) :: (k, b) :: List.map (fun v => (k, v)) l).getLast? = some q
    rw [List.getLast?_cons_cons]
    exact hq

/-- C7: on a multi-variant table, inserting the same key `n` times increases
`size()` by `n`, each duplicate appended in order to the per-bucket
sequence, and a subsequent `erase(k)` removes the whole bucket, decreasing
`size()` by exactly `n` (ending at 0 when these were the only insertions). -/
theorem C7_multi_duplicate_accounting (K V : Type) [DecidableEq K] [DecidableEq V]
    (c : Cfg K) (k : K) (vs : List V) :
    ∃ t, minsertAll c (MTable.mkEmpty K V) (vs.map (fun v => (k, v))) = some t ∧
      t.totalElements = vs.length ∧
      t.arr = (if vs = [] then [] else [vs.map (fun v => (k, v))]) ∧
      ∃ t' i2, meraseKey c t k = some (t', i2) ∧
        t'.totalElements = 0 ∧ t'.arr = [] := by
  cases vs with
  | nil =>
    refine ⟨MTable.mkEmpty K V, rfl, rfl, rfl, ?_⟩
    refine ⟨MTable.mkEmpty K V, (MTable.mkEmpty K V).endIter, ?_, rfl, rfl⟩
    unfold meraseKey msearch
    rw [if_pos (show (MTable.mkEmpty K V).arr.length = 0 from rfl)]
    show mremove c (MTable.mkEmpty K V) (MTable.mkEmpty K V).endIter true = _
    unfold mremove
    rw [if_pos (show (MTable.mkEmpty K V).arr.length = 0 from rfl)]
  | cons v ws =>
    refine ⟨mstate c k ((k, v) :: ws.map (fun v => (k, v))) (1 + ws.length), ?_, ?_, ?_, ?_⟩
    · rw [show ((v :: ws).map (fun v => (k, v))) = (k, v) :: ws.map (fun v => (k, v)) from rfl]
      rw [minsertAll_cons, memplace_first]
      show minsertAll c (mstate c k [(k, v)] 1) (ws.map (fun v => (k, v))) = _
      rw [minsertAll_dups c k ws [(k, v)] 1]
      rfl
    · show 1 + ws.length = (v :: ws).length
      rw [List.length_cons]
      omega
    · rw [if_neg (by simp)]
      rfl
    · obtain ⟨q, hq, hk⟩ := map_key_getLast k ws v
      obtain ⟨t', heq, htot, harr, hext⟩ :=
        meraseKey_mstate c k ((k, v) :: ws.map (fun v => (k, v))) (1 + ws.length) q hq hk
      refine ⟨t', t'.endIter, heq, ?_, harr⟩
      rw [htot, List.length_cons, List.length_map]
      omega

/-- Witness instantiating `C7_multi_duplicate_accounting` at scenario S2:
`insert(1,a); insert(1,b); insert(1,c); erase(1)` ends with `size == 0`. -/
theorem C7_witness :
    ∃ t, minsertAll c3x (MTable.mkEmpty Nat Nat)
        ([10, 20, 30].map (fun v => (1, v))) = some t ∧
      t.totalElements = [10, 20, 30].length ∧
      t.arr = (if ([10, 20, 30] : List Nat) = [] then []
        else [[10, 20, 30].map (fun v => (1, v))]) ∧
      ∃ t' i2, meraseKey c3x t 1 = some (t', i2) ∧
        t'.totalElements = 0 ∧ t'.arr = [] :=
  C7_multi_duplicate_accounting Nat Nat c3x 1 [10, 20, 30]

/-! ### Claim C9 -/

theorem emplace_ok_length_ge [DecidableEq K] (c : Cfg K) (t : Table K V) (v : K × V)
    (t' : Table K V) (it : Iter) (hB : 1024 ≤ (allocIfUnset t).fastHashInfo.length)
    (h : emplace c t v = .ok t' it) : 1024 ≤ t'.fastHashInfo.length := by
  unfold emplace at h
  simp only [] at h
  split at h
  · exact absurd h (by simp)
  · split at h
    · exact absurd h (by simp)
    · rename_i loc hp
      cases h
      exact hB
    · rename_i loc hp
      split at h
      · rename_i hload
        cases h
        calc (1024 : Nat) ≤ max _ 1024 := le_max_right _ _
          _ = _ := (rebalance_length _).symm
      · rename_i hload
        cases h
        simpa [List.length_set] using hB

theorem emplace_fresh_length [DecidableEq K] (c : Cfg K) (t : Table K V) (v : K × V)
    (t' : Table K V) (it : Iter) (hB : t.fastHashInfo.length = 0) (harr : t.arr = [])
    (h : emplace c t v = .ok t' it) : t'.fastHashInfo.length = 1024 := by
  rw [emplace_allocIfUnset] at h
  have hAlen : (allocIfUnset t).fastHashInfo.length = 1024 := by
    rw [allocIfUnset_length, if_pos hB]
  have hAarr : (allocIfUnset t).arr = [] := by rw [allocIfUnset_arr, harr]
  have hAfast : (allocIfUnset t).fastHashInfo = List.replicate 1024 0 := by
    unfold allocIfUnset
    rw [if_pos hB]
  have hg : ¬ (c.big = false ∧ (allocIfUnset t).arr.length = 2 ^ 32 - 2) := by
    rintro ⟨_, h2⟩
    rw [hAarr] at h2
    simp at h2
  have hemp : (allocIfUnset t).getLocationEmpty
      (c.hasher v.1 % U64 % (allocIfUnset t).fastHashInfo.length) = true := by
    unfold Table.getLocationEmpty Table.getPartialHash
    rw [hAfast]
    rw [getD_replicate 0 0 (by rw [List.length_replicate]; exact Nat.mod_lt _ (by norm_num))]
    rfl
  rw [emplace_of_empty c (allocIfUnset t) v _ (by rw [hAlen]; norm_num) hg
    (probeLoop_empty_step c (allocIfUnset t) _ _ _ (by rw [hAlen]; norm_num) hemp)] at h
  simp only [] at h
  rw [if_neg (by
    rw [List.length_set, hAlen, hAarr]
    norm_num [MaxLoadNum])] at h
  cases h
  simp [List.length_set, hAlen]

theorem shiftLoop_lengths :
    ∀ (fuel : Nat) (t : Table K V) (prev cur : Nat) (t' : Table K V),
      shiftLoop t prev cur fuel = some t' →
      t'.fastHashInfo.length = t.fastHashInfo.length ∧ t'.arr = t.arr ∧
        t'.totalElements = t.totalElements ∧ t'.rehashCounter = t.rehashCounter := by
  intro fuel
  induction fuel with
  | zero => intro t prev cur t' h; simp [shiftLoop] at h
  | succ n ih =>
    intro t prev cur t' h
    rw [shiftLoop] at h
    by_cases hemp : t.getLocationEmpty cur = true
    · rw [if_pos hemp] at h
      cases h
      exact ⟨rfl, rfl, rfl, rfl⟩
    · rw [if_neg hemp] at h
      by_cases hd : 0 < t.getDistanceFromDesiredSpot cur
      · rw [if_pos hd] at h
        have h2 := ih _ _ _ _ h
        simpa [List.length_set] using h2
      · rw [if_neg hd] at h
        cases h
        exact ⟨rfl, rfl, rfl, rfl⟩

theorem remove_bucket_length [DecidableEq K] (c : Cfg K) (t : Table K V) (it : Iter)
    (dAll : Bool) (t' : Table K V) (i2 : Iter) (h : remove c t it dAll = some (t', i2)) :
    t'.fastHashInfo.length = t.fastHashInfo.length := by
  unfold remove at h
  simp only [] at h
  split at h
  · cases h; rfl
  · split at h
    · cases h; rfl
    · split at h
      · cases h; rfl
      · split at h
        · exact absurd h (by simp)
        · rename_i nIT _
          split at h
          · cases h; rfl
          · split at h
            · exact absurd h (by simp)
            · split at h
              · exact absurd h (by simp)
              · split at h
                · exact absurd h (by simp)
                · rename_i heq
                  split at h
                  · exact absurd h (by simp)
                  · rename_i t4 hshift
                    have h4 := shiftLoop_lengths _ _ _ _ _ hshift
                    have hlen : t4.fastHashInfo.length = t.fastHashInfo.length := by
                      rw [h4.1]
                      simp [List.length_set]
                    split at h <;> (cases h; exact hlen)

/-- C9: whenever a bucket array is allocated it has at least 1024 buckets: the
size-hint constructor allocates `max n 1024` buckets, the first insertion into
an unallocated table allocates exactly 1024 buckets, no rehash ever produces
fewer than 1024 buckets, insertion keeps the bucket count in `{0} ∪ [1024, ∞)`,
and erasure never changes the bucket count. -/
theorem C9_min_capacity :
    (∀ (n : Nat), (mkHinted Nat Nat n).fastHashInfo.length = max n 1024) ∧
    (∀ (K V : Type) [DecidableEq K] (c : Cfg K) (t : Table K V) (v : K × V)
        (t' : Table K V) (it : Iter),
      t.fastHashInfo.length = 0 → t.arr = [] → emplace c t v = .ok t' it →
        t'.fastHashInfo.length = 1024) ∧
    (∀ (K V : Type) (t : Table K V), 1024 ≤ (rebalance t).fastHashInfo.length) ∧
    (∀ (K V : Type) [DecidableEq K] (c : Cfg K) (t : Table K V) (v : K × V)
        (t' : Table K V) (it : Iter),
      (t.fastHashInfo.length = 0 ∨ 1024 ≤ t.fastHashInfo.length) →
      emplace c t v = .ok t' it → 1024 ≤ t'.fastHashInfo.length) ∧
    (∀ (K V : Type) [DecidableEq K] (c : Cfg K) (t : Table K V) (it : Iter) (dAll : Bool)
        (t' : Table K V) (i2 : Iter),
      remove c t it dAll = some (t', i2) →
        t'.fastHashInfo.length = t.fastHashInfo.length) := by
  refine ⟨?_, ?_, ?_, ?_, ?_⟩
  · intro n
    simp only [mkHinted, List.length_replicate]
    rcases Nat.lt_or_ge n 1024 with h | h
    · rw [if_pos h, Nat.max_eq_right (by omega)]
    · rw [if_neg (by omega), Nat.max_eq_left h]
  · intro K V _ c t v t' it hB harr h
    exact emplace_fresh_length c t v t' it hB harr h
  · intro K V t
    rw [rebalance_length]
    exact le_max_right _ _
  · intro K V _ c t v t' it hB h
    refine emplace_ok_length_ge c t v t' it ?_ h
    rw [allocIfUnset_length]
    rcases hB with h0 | h0
    · rw [if_pos h0]
    · rw [if_neg (by omega)]
      exact h0
  · intro K V _ c t it dAll t' i2 h
    exact remove_bucket_length c t it dAll t' i2 h

/-- Witness for the hypotheses of `C9_min_capacity`: first insertion into the
default-constructed table. -/
theorem C9_witness :
    (mkHinted Nat Nat 4096).fastHashInfo.length = max 4096 1024 ∧
    1024 ≤ (rebalance (Table.mkEmpty Nat Nat)).fastHashInfo.length :=
  ⟨C9_min_capacity.1 4096, C9_min_capacity.2.2.1 Nat Nat (Table.mkEmpty Nat Nat)⟩

/-- Witness for `C10_empty_table_guards` at the unallocated empty table. -/
theorem C10_witness :
    search c3x (Table.mkEmpty Nat Nat) 7 = some (Table.mkEmpty Nat Nat).endIter ∧
    eraseKey c3x (Table.mkEmpty Nat Nat) 7 =
      some (Table.mkEmpty Nat Nat, (Table.mkEmpty Nat Nat).endIter) :=
  (C10_empty_table_guards Nat Nat c3x (Table.mkEmpty Nat Nat)
    (MTable.mkEmpty Nat Nat) 7).1 rfl

end SHT
